import Mathlib

/-!
Verification of the data-processing core of `generate_dashboard.py`
(repository `lmsm2025`).

The Python function `process_data(raw_data, column_mapping)` is embedded
shallowly below:

* Python `dict`s (which preserve insertion order) are modelled as
  association lists in insertion order (`bump` appends a new key at the
  end and increments an existing key in place, exactly like
  `d[k] = d.get(k, 0) + 1`).
* Python `set`s are modelled as duplicate-free lists (only their size is
  ever consumed, via `len`).
* Python's stable `sorted` is modelled by a structural stable insertion
  sort (`sortLe`): the output of a stable sort is uniquely determined by
  the comparison and input order, so any stable algorithm is a faithful
  model of CPython's timsort.
* Python strings are Lean `String`s; `str.strip()` is modelled by
  `pyStrip` (it trims `Char.isWhitespace`, the ASCII subset of the
  Unicode whitespace Python strips).  String comparison in both
  languages is lexicographic by code point.
* `int(float(s))` is modelled by `ageCoerce`.  Finite float values are
  modelled as exact decimal values `mantissa * 10 ^ exp`; IEEE-754
  rounding of decimal literals is not modelled (no claim depends on it).
  As in CPython, `float` accepts `inf`/`infinity`/`nan` (any case, with
  sign), `int(nan)` raises `ValueError` (caught by the code's
  `except (ValueError, TypeError)`) and `int(inf)` raises
  `OverflowError`, which the code does NOT catch; this uncaught
  exception is modelled by the `Except` monad.
* `pandas.DataFrame(processed_rows)` is only used for the two filter
  option lists; `df[c].unique()` preserves first-encounter order and the
  column `c` exists iff `processed_rows` is non-empty, which is modelled
  directly.
-/

/-! ### Association lists in insertion order -/

/-- Python `d[k] = d.get(k, 0) + 1` on an insertion-ordered dict. -/
def bump : List (String × Nat) → String → List (String × Nat)
  | [], k => [(k, 1)]
  | (a, n) :: rest, k => if a = k then (a, n + 1) :: rest else (a, n) :: bump rest k

/-- Lookup with default, Python `d.get(k, d0)` / `d[k]`. -/
def lookupD : List (String × Nat) → String → Nat → Nat
  | [], _, d => d
  | (a, n) :: rest, k, d => if a = k then n else lookupD rest k d

/-- Python `s.add(x)` on a set modelled as a duplicate-free list. -/
def addSet (s : List String) (k : String) : List String :=
  if k ∈ s then s else s ++ [k]

/-- The nested `defaultdict(lambda: defaultdict(int))`:
`school_municipality_counts[mun][school] += 1`. -/
def bump2 : List (String × List (String × Nat)) → String → String →
    List (String × List (String × Nat))
  | [], m, s => [(m, [(s, 1)])]
  | (a, inner) :: rest, m, s =>
    if a = m then (a, bump inner s) :: rest else (a, inner) :: bump2 rest m s

/-- Sum of the values of a counts dict, Python `sum(d.values())`. -/
def sumSnd (m : List (String × Nat)) : Nat :=
  (m.map Prod.snd).sum

/-! ### A structural stable sort modelling Python `sorted` -/

/-- Insert `x` (an element occurring earlier in the original list than
everything in `m`) in front of the first element it compares `le` to. -/
def insertLe (le : α → α → Bool) (x : α) : List α → List α
  | [] => [x]
  | y :: ys => if le x y then x :: y :: ys else y :: insertLe le x ys

/-- Stable insertion sort; models Python's stable `sorted(l, key=...)`. -/
def sortLe (le : α → α → Bool) : List α → List α
  | [] => []
  | x :: xs => insertLe le x (sortLe le xs)

/-- Strict lexicographic comparison of character lists by code point:
both CPython's `str` comparison and Lean's `String` order. -/
def charListLt : List Char → List Char → Bool
  | [], [] => false
  | [], _ :: _ => true
  | _ :: _, [] => false
  | a :: as, b :: bs =>
    if a.toNat < b.toNat then true
    else if b.toNat < a.toNat then false
    else charListLt as bs

/-- Non-strict code-point lexicographic comparison of character lists. -/
def charListLe (as bs : List Char) : Bool := ! charListLt bs as

/-- Ascending comparison on strings (Python `sorted` on `str`). -/
def strLeB (a b : String) : Bool := charListLe a.data b.data

/-- Strict version of `strLeB` (Python `<` on `str`). -/
def strLtB (a b : String) : Bool := charListLt a.data b.data

/-- Ascending comparison on integers (Python `sorted` on `int`). -/
def intLeB (a b : Int) : Bool := decide (a ≤ b)

/-- Comparison used in `sorted(counts.items(), key=lambda item: item[1],
reverse=True)`: descending by count, stability keeps insertion order. -/
def descCountB (a b : String × Nat) : Bool := decide (b.2 ≤ a.2)

/-! ### Python string and number coercion helpers -/

/-- Python `str.strip()` (whitespace trim on both ends). -/
def pyStrip (s : String) : String :=
  String.mk (((s.data.dropWhile Char.isWhitespace).reverse.dropWhile Char.isWhitespace).reverse)

/-- Numeric value of a list of ASCII digit characters, most significant
first, accumulated into `acc`. -/
def digitsToNat (acc : Nat) : List Char → Nat
  | [] => acc
  | c :: cs => digitsToNat (acc * 10 + (c.toNat - 48)) cs

/-- The value of a CPython `float`, with finite values kept exact as
`mantissa * 10 ^ exp10`. -/
inductive PyFloat where
  | finite (mantissa : Int) (exp10 : Int)
  | inf
  | negInf
  | nan
deriving DecidableEq

/-- Optional leading sign; returns (isNegative, rest). -/
def parseSign : List Char → Bool × List Char
  | '+' :: r => (false, r)
  | '-' :: r => (true, r)
  | l => (false, l)

/-- Optional exponent part `("e"|"E") [sign] digits` terminating the
literal; `m`/`e0` carry the mantissa and implicit exponent so far. -/
def parseExp (m : Nat) (e0 : Int) : List Char → Option (Nat × Int)
  | [] => some (m, e0)
  | c :: r1 =>
    if c = 'e' ∨ c = 'E' then
      let sr := parseSign r1
      let ds := sr.2.takeWhile Char.isDigit
      let r3 := sr.2.dropWhile Char.isDigit
      if ds.isEmpty ∨ ¬ r3.isEmpty then none
      else some (m, e0 + (if sr.1 then -(digitsToNat 0 ds : Int) else (digitsToNat 0 ds : Int)))
    else none

/-- Unsigned decimal float literal: `digits [. digits] [exp]` or
`. digits [exp]`, at least one digit overall. -/
def parseDecimal (l : List Char) : Option (Nat × Int) :=
  let ip := l.takeWhile Char.isDigit
  let r1 := l.dropWhile Char.isDigit
  match r1 with
  | '.' :: r2 =>
    let fp := r2.takeWhile Char.isDigit
    let r3 := r2.dropWhile Char.isDigit
    if ip.isEmpty ∧ fp.isEmpty then none
    else parseExp (digitsToNat 0 (ip ++ fp)) (-(fp.length : Int)) r3
  | _ => if ip.isEmpty then none else parseExp (digitsToNat 0 ip) 0 r1

/-- CPython `float(s)` on an already-stripped string: optional sign, then
`inf`/`infinity`/`nan` (case-insensitive) or a decimal literal.
(Underscore digit grouping and non-ASCII digits are not modelled.) -/
def pyFloatParse (s : String) : Option PyFloat :=
  let sr := parseSign s.data
  let low := sr.2.map Char.toLower
  if low = "inf".data ∨ low = "infinity".data then
    some (if sr.1 then .negInf else .inf)
  else if low = "nan".data then some .nan
  else
    match parseDecimal sr.2 with
    | none => none
    | some (m, e) => some (.finite (if sr.1 then -(m : Int) else (m : Int)) e)

/-- Truncation toward zero of the exact value `m * 10 ^ e`
(CPython `int` applied to a finite float; `Int.div` is T-division). -/
def truncMantissa (m e : Int) : Int :=
  if 0 ≤ e then m * (10 : Int) ^ e.toNat else Int.tdiv m ((10 : Int) ^ (-e).toNat)

/-- Outcome of CPython `int(float(s))`. -/
inductive AgeParse where
  | ok (n : Int)
  | valueError
  | overflowError
deriving DecidableEq

/-- CPython `int(float(s))`: `ValueError` on parse failure or `nan`,
`OverflowError` on an infinity, otherwise truncation toward zero. -/
def ageCoerce (s : String) : AgeParse :=
  match pyFloatParse s with
  | none => .valueError
  | some .nan => .valueError
  | some .inf => .overflowError
  | some .negInf => .overflowError
  | some (.finite m e) => .ok (truncMantissa m e)

/-! ### The column mapping and per-row field extraction -/

/-- The `column_mapping` dict: `column_mapping.get(KEY)` is `none` when
the key is absent.  (`EMAIL_ADDRESS` is never read by `process_data`.) -/
structure ColumnMapping where
  timestamp : Option Nat
  munisipiu : Option Nat
  nivelEskola : Option Nat
  naranEskola : Option Nat
  dixiplina : Option Nat
  topiku : Option Nat
  dokumentus : Option Nat
  naranKanorin1 : Option Nat
  naranKanorin2 : Option Nat
  naranKanorin3 : Option Nat
  seksu1 : Option Nat
  seksu2 : Option Nat
  seksu3 : Option Nat
  idade1 : Option Nat
  idade2 : Option Nat
  idade3 : Option Nat
deriving DecidableEq

/-- A mapping with every key absent. -/
def cmNone : ColumnMapping :=
  ⟨none, none, none, none, none, none, none, none, none, none, none, none, none, none, none, none⟩

/-- `row[idx].strip() if idx is not None and len(row) > idx else sentinel`. -/
def getCell (row : List String) (idx : Option Nat) (sentinel : String) : String :=
  match idx with
  | none => sentinel
  | some i => if i < row.length then pyStrip (row.getD i "") else sentinel

/-- The submission-level fields shared by the up-to-three subject slots
of one raw row (lines 85-103 of `generate_dashboard.py`). -/
structure Shared where
  timestamp : String
  munisipiu : String
  nivelEskola : String
  naranEskola : String
  dixiplina : String
  topiku : String
  dokumentus : String
deriving DecidableEq

/-- Extraction of the shared fields, sentinel `"N/A"`. -/
def extractShared (cm : ColumnMapping) (row : List String) : Shared where
  timestamp := getCell row cm.timestamp "N/A"
  munisipiu := getCell row cm.munisipiu "N/A"
  nivelEskola := getCell row cm.nivelEskola "N/A"
  naranEskola := getCell row cm.naranEskola "N/A"
  dixiplina := getCell row cm.dixiplina "N/A"
  topiku := getCell row cm.topiku "N/A"
  dokumentus := getCell row cm.dokumentus "N/A"

/-- One element of `processed_rows` (a per-subject detail record). -/
structure StudentRow where
  id : String
  timestamp : String
  munisipiu : String
  nivelEskola : String
  naranEskola : String
  naranKanorin : String
  seksu : String
  idade : String
  dixiplina : String
  topiku : String
  dokumentus : String
deriving DecidableEq

/-- The synthetic per-subject identifier `f"{i}-{k}"`. -/
def mkId (i k : Nat) : String := toString i ++ "-" ++ toString k

/-- The mutable state of the `process_data` loop. -/
structure ProcState where
  genderCounts : List (String × Nat)
  ageDistribution : List (String × Nat)
  uniqueMunicipalities : List String
  uniqueDisciplines : List String
  uniqueTopiku : List String
  municipalityChartCounts : List (String × Nat)
  disciplineChartCounts : List (String × Nat)
  schoolLevelCounts : List (String × Nat)
  schoolMunicipalityCounts : List (String × List (String × Nat))
  processedRows : List StudentRow
deriving DecidableEq

/-- All aggregates empty, the state before the loop. -/
def initState : ProcState :=
  ⟨[], [], [], [], [], [], [], [], [], []⟩

/-- The only uncaught exception `process_data` can raise:
`OverflowError` from `int(float(idade))` on an infinite value. -/
inductive PyErr where
  | overflowError
deriving DecidableEq

/-- The name/sex/age column triple of subject slot `k` (k = 1, 2, 3). -/
def slotCols (cm : ColumnMapping) : Nat → Option Nat × Option Nat × Option Nat
  | 1 => (cm.naranKanorin1, cm.seksu1, cm.idade1)
  | 2 => (cm.naranKanorin2, cm.seksu2, cm.idade2)
  | 3 => (cm.naranKanorin3, cm.seksu3, cm.idade3)
  | _ => (none, none, none)

/-- The trimmed name cell of slot `k` of a row (sentinel empty string). -/
def slotName (cm : ColumnMapping) (row : List String) (k : Nat) : String :=
  getCell row (slotCols cm k).1 ""

/-- The gender tally of one subject slot (lines 139-140). -/
def genderStep (seksu : String) (st : ProcState) : ProcState :=
  if seksu ≠ "" ∧ seksu ≠ "N/A" then
    { st with genderCounts := bump st.genderCounts seksu }
  else st

/-- The age tally of one subject slot (lines 143-148); the uncaught
`OverflowError` of `int(float(idade))` escapes here. -/
def ageStep (idade : String) (st : ProcState) : Except PyErr ProcState :=
  if idade ≠ "" ∧ idade ≠ "N/A" then
    match ageCoerce idade with
    | .ok n => .ok { st with ageDistribution := bump st.ageDistribution (toString n) }
    | .valueError => .ok st
    | .overflowError => .error .overflowError
  else .ok st

/-- The per-subject detail record appended to `processed_rows`
(lines 150-162). -/
def mkRecord (cm : ColumnMapping) (sh : Shared) (i k : Nat) (row : List String) : StudentRow :=
  let seksu := getCell row (slotCols cm k).2.1 ""
  let idade := getCell row (slotCols cm k).2.2 ""
  { id := mkId i k
    timestamp := sh.timestamp
    munisipiu := sh.munisipiu
    nivelEskola := sh.nivelEskola
    naranEskola := sh.naranEskola
    naranKanorin := getCell row (slotCols cm k).1 ""
    seksu := if seksu ≠ "" then seksu else "N/A"
    idade := if idade ≠ "" then idade else "N/A"
    dixiplina := sh.dixiplina
    topiku := sh.topiku
    dokumentus := sh.dokumentus }

/-- One iteration of the `for k in range(1, 4)` subject loop
(lines 124-162): tally gender and age, then append the detail record,
when the subject name is non-empty. -/
def processSlot (cm : ColumnMapping) (sh : Shared) (i k : Nat) (row : List String)
    (st : ProcState) : Except PyErr ProcState :=
  if getCell row (slotCols cm k).1 "" ≠ "" then
    match ageStep (getCell row (slotCols cm k).2.2 "")
        (genderStep (getCell row (slotCols cm k).2.1 "") st) with
    | .error e => .error e
    | .ok st2 =>
      .ok { st2 with processedRows := st2.processedRows ++ [mkRecord cm sh i k row] }
  else .ok st

/-- The submission-level aggregate updates of one row iteration
(lines 105-121).  Note line 120: the cross-tab guard tests only
`!= 'N/A'`, not truthiness, so a blank municipality or school name
passes it. -/
def sharedStep (sh : Shared) (st : ProcState) : ProcState :=
  let st1 := if sh.munisipiu ≠ "" ∧ sh.munisipiu ≠ "N/A" then
      { st with uniqueMunicipalities := addSet st.uniqueMunicipalities sh.munisipiu,
                municipalityChartCounts := bump st.municipalityChartCounts sh.munisipiu }
    else st
  let st2 := if sh.dixiplina ≠ "" ∧ sh.dixiplina ≠ "N/A" then
      { st1 with uniqueDisciplines := addSet st1.uniqueDisciplines sh.dixiplina,
                 disciplineChartCounts := bump st1.disciplineChartCounts sh.dixiplina }
    else st1
  let st3 := if sh.topiku ≠ "" ∧ sh.topiku ≠ "N/A" then
      { st2 with uniqueTopiku := addSet st2.uniqueTopiku sh.topiku } else st2
  let st4 := if sh.nivelEskola ≠ "" ∧ sh.nivelEskola ≠ "N/A" then
      { st3 with schoolLevelCounts := bump st3.schoolLevelCounts sh.nivelEskola } else st3
  let smc := bump2 st4.schoolMunicipalityCounts sh.munisipiu sh.naranEskola
  if sh.munisipiu ≠ "N/A" ∧ sh.naranEskola ≠ "N/A" then
    { st4 with schoolMunicipalityCounts := smc }
  else st4

/-- The three subject slots of one row iteration (lines 124-162). -/
def slotsStep (cm : ColumnMapping) (sh : Shared) (i : Nat) (row : List String)
    (st : ProcState) : Except PyErr ProcState :=
  match processSlot cm sh i 1 row st with
  | .error e => .error e
  | .ok s1 =>
    match processSlot cm sh i 2 row s1 with
    | .error e => .error e
    | .ok s2 => processSlot cm sh i 3 row s2

/-- One iteration of the row loop (lines 82-162): submission-level
aggregates, then the three subject slots. -/
def processRow (cm : ColumnMapping) (i : Nat) (row : List String)
    (st : ProcState) : Except PyErr ProcState :=
  let sh := extractShared cm row
  slotsStep cm sh i row (sharedStep sh st)

/-- The `for i, row in enumerate(raw_data)` loop, starting at index `i`. -/
def processRowsFrom (cm : ColumnMapping) : Nat → List (List String) → ProcState →
    Except PyErr ProcState
  | _, [], st => .ok st
  | i, row :: rest, st =>
    match processRow cm i row st with
    | .error e => .error e
    | .ok st1 => processRowsFrom cm (i + 1) rest st1

/-- The loop state after all rows of the input are processed. -/
def finalState (rows : List (List String)) (cm : ColumnMapping) : Except PyErr ProcState :=
  processRowsFrom cm 0 rows initState

/-! ### Output assembly (lines 164-247) -/

/-- A `labels`/`data` chart pair. -/
structure ChartData where
  labels : List String
  data : List Nat
deriving DecidableEq

/-- The gender chart additionally carries formatted percentages. -/
structure GenderChartData where
  labels : List String
  data : List Nat
  percentages : List String
deriving DecidableEq

/-- One row of the municipality/school cross-tab table. -/
structure SchoolMunRow where
  munisipiu : String
  naranEskola : String
  total : Nat
deriving DecidableEq

/-- The dictionary returned by `process_data`. -/
structure Result where
  totalMunicipality : Nat
  municipalityChartData : ChartData
  totalGender : Nat
  genderChartData : GenderChartData
  ageDistribution : List (String × Nat)
  ageChartData : ChartData
  schoolLevelCounts : List (String × Nat)
  schoolLevelChartData : ChartData
  schoolMunicipalityTableData : List SchoolMunRow
  totalDiscipline : Nat
  disciplineCounts : List (String × Nat)
  disciplineChartData : ChartData
  totalTopiku : Nat
  allNivelEskolaOptions : List String
  allMunisipiuOptions : List String
  detailedTableData : List StudentRow
  municipalityPieChartData : ChartData
deriving DecidableEq

/-- CPython `"{:.1f}%".format(count / total * 100)`, modelled by exact
rational arithmetic with round-half-even on the first decimal (the
binary-float rounding of the quotient is not modelled; no claim
depends on the percentage strings). -/
def fmtPct (count total : Nat) : String :=
  let num := count * 1000
  let q := num / total
  let r := num % total
  let tenths := if total < 2 * r then q + 1
    else if 2 * r < total then q
    else if q % 2 = 0 then q else q + 1
  toString (tenths / 10) ++ "." ++ toString (tenths % 10) ++ "%"

/-- `int(k)` on an age-distribution key.  Keys of `age_distribution` are
always `str` of an `int` (see `ageDistribution_keys_int`), so the
defaulted branch is unreachable; it is totalised with value 0. -/
def intOfKey (s : String) : Int :=
  match s.data with
  | '-' :: ds => if ds ≠ [] ∧ ds.all Char.isDigit then -(digitsToNat 0 ds : Int) else 0
  | ds => if ds ≠ [] ∧ ds.all Char.isDigit then (digitsToNat 0 ds : Int) else 0

/-- Comparison for `sorted(table, key=lambda x: (x['Munisipiu'],
x['Naran Eskola']))`: lexicographic on the string pair. -/
def tableLeB (a b : SchoolMunRow) : Bool :=
  if a.munisipiu = b.munisipiu then strLeB a.naranEskola b.naranEskola
  else strLtB a.munisipiu b.munisipiu

/-- Flattening of the nested cross-tab dict into table rows
(lines 202-209), insertion order. -/
def flattenMun : List (String × List (String × Nat)) → List SchoolMunRow
  | [] => []
  | (m, inner) :: rest => inner.map (fun q => ⟨m, q.1, q.2⟩) ++ flattenMun rest

/-- The summary built for an empty input (lines 59-77). -/
def emptyResult : Result :=
  { totalMunicipality := 0
    municipalityChartData := ⟨[], []⟩
    totalGender := 0
    genderChartData := ⟨[], [], []⟩
    ageDistribution := []
    ageChartData := ⟨[], []⟩
    schoolLevelCounts := []
    schoolLevelChartData := ⟨[], []⟩
    schoolMunicipalityTableData := []
    totalDiscipline := 0
    disciplineCounts := []
    disciplineChartData := ⟨[], []⟩
    totalTopiku := 0
    allNivelEskolaOptions := ["All"]
    allMunisipiuOptions := ["All"]
    detailedTableData := []
    municipalityPieChartData := ⟨[], []⟩ }

/-- The summary assembly from the final loop state (lines 164-247).
Note line 199 of the source: `school_level_chart_data` iterates
`school_level_counts.keys()` (insertion order), not the sorted labels. -/
def assemble (st : ProcState) : Result :=
  let municipalityChartLabels := sortLe strLeB (st.municipalityChartCounts.map Prod.fst)
  let sortedMunicipalities := (sortLe descCountB st.municipalityChartCounts).take 10
  let genderChartLabels := sortLe strLeB (st.genderCounts.map Prod.fst)
  let genderChartVals := genderChartLabels.map (fun l => lookupD st.genderCounts l 0)
  let totalGendersForChart := genderChartVals.sum
  let ageIntLabels := sortLe intLeB (st.ageDistribution.map (fun p => intOfKey p.1))
  let sortedDisciplines := (sortLe descCountB st.disciplineChartCounts).take 10
  { totalMunicipality := st.uniqueMunicipalities.length
    municipalityChartData :=
      ⟨municipalityChartLabels,
       municipalityChartLabels.map (fun l => lookupD st.municipalityChartCounts l 0)⟩
    totalGender := sumSnd st.genderCounts
    genderChartData :=
      ⟨genderChartLabels, genderChartVals,
       if totalGendersForChart > 0 then
         genderChartVals.map (fun c => fmtPct c totalGendersForChart) else []⟩
    ageDistribution := st.ageDistribution
    ageChartData :=
      ⟨ageIntLabels.map toString,
       ageIntLabels.map (fun n => lookupD st.ageDistribution (toString n) 0)⟩
    schoolLevelCounts := st.schoolLevelCounts
    schoolLevelChartData :=
      ⟨sortLe strLeB (st.schoolLevelCounts.map Prod.fst),
       (st.schoolLevelCounts.map Prod.fst).map (fun l => lookupD st.schoolLevelCounts l 0)⟩
    schoolMunicipalityTableData := sortLe tableLeB (flattenMun st.schoolMunicipalityCounts)
    totalDiscipline := st.uniqueDisciplines.length
    disciplineCounts := st.disciplineChartCounts
    disciplineChartData :=
      ⟨sortedDisciplines.map Prod.fst, sortedDisciplines.map Prod.snd⟩
    totalTopiku := st.uniqueTopiku.length
    allNivelEskolaOptions := "All" ::
      (if st.processedRows.isEmpty then []
       else sortLe strLeB (st.processedRows.foldl (fun acc r => addSet acc r.nivelEskola) []))
    allMunisipiuOptions := "All" ::
      (if st.processedRows.isEmpty then []
       else sortLe strLeB (st.processedRows.foldl (fun acc r => addSet acc r.munisipiu) []))
    detailedTableData := st.processedRows
    municipalityPieChartData :=
      ⟨sortedMunicipalities.map Prod.fst, sortedMunicipalities.map Prod.snd⟩ }

/-- The embedding of `process_data`: early return of the all-empty
summary on an empty input, otherwise the row loop followed by the
output assembly. -/
def processData (rawData : List (List String)) (cm : ColumnMapping) : Except PyErr Result :=
  if rawData.isEmpty then .ok emptyResult
  else
    match finalState rawData cm with
    | .error e => .error e
    | .ok st => .ok (assemble st)

/-- The result of a non-raising run (used to state closed witnesses). -/
def resultOr (e : Except PyErr Result) : Result :=
  match e with
  | .ok r => r
  | .error _ => emptyResult

/-- The final state of a non-raising run (used in closed witnesses). -/
def stateOr (e : Except PyErr ProcState) : ProcState :=
  match e with
  | .ok s => s
  | .error _ => initState

/-- The fields of the loop state not touched by the subject-slot loop. -/
def sharedView (st : ProcState) :=
  (st.uniqueMunicipalities, st.uniqueDisciplines, st.uniqueTopiku,
   st.municipalityChartCounts, st.disciplineChartCounts, st.schoolLevelCounts,
   st.schoolMunicipalityCounts)

/-- The fields of the loop state not touched by the submission step. -/
def slotsView (st : ProcState) :=
  (st.genderCounts, st.ageDistribution, st.processedRows)

/-- Fold over the rows with the explicit source-row index, the shape of
the `enumerate` loop. -/
def foldIdx (g : Nat → List String → α → α) : Nat → α → List (List String) → α
  | _, a, [] => a
  | i, a, row :: rest => foldIdx g (i + 1) (g i row a) rest

/-! ### Specification-side observations of the input -/

/-- Whether a string is a plain decimal-digit string (the notion the
age-distribution claim calls "decimal string of a non-negative
integer"). -/
def isNatString (s : String) : Bool :=
  ! s.data.isEmpty && s.data.all Char.isDigit

/-- Number of occurrences of `k` in `l`. -/
def countOcc (l : List String) (k : String) : Nat :=
  (l.filter (fun x => decide (x = k))).length

/-- The municipality values of the input rows that pass the guard of
line 105 (truthy and not the sentinel), in input order. -/
def munStream (cm : ColumnMapping) (rows : List (List String)) : List String :=
  (rows.map (fun row => (extractShared cm row).munisipiu)).filter
    (fun v => decide (v ≠ "" ∧ v ≠ "N/A"))

/-- The discipline values of the input rows that pass the guard of
line 109, in input order. -/
def dixStream (cm : ColumnMapping) (rows : List (List String)) : List String :=
  (rows.map (fun row => (extractShared cm row).dixiplina)).filter
    (fun v => decide (v ≠ "" ∧ v ≠ "N/A"))

/-- First-encounter deduplication of a list of values. -/
def firstEnc (l : List String) : List String := l.foldl addSet []

/-- The occurrence-count table of a value stream, keys in
first-encounter order: the content of an insertion-ordered Python
counts dict built from the stream. -/
def countTable (l : List String) : List (String × Nat) :=
  (firstEnc l).map (fun k => (k, countOcc l k))

/-- Number of input rows extracting exactly the (municipality, school
name) pair `(m, s)`. -/
def pairCount (cm : ColumnMapping) (m s : String) (rows : List (List String)) : Nat :=
  (rows.filter (fun row =>
    decide ((extractShared cm row).munisipiu = m ∧
      (extractShared cm row).naranEskola = s))).length

/-- Number of input rows passing the cross-tab guard of line 120
(both values differ from the `'N/A'` sentinel; blanks pass). -/
def crossEligible (cm : ColumnMapping) (rows : List (List String)) : Nat :=
  (rows.filter (fun row =>
    decide ((extractShared cm row).munisipiu ≠ "N/A" ∧
      (extractShared cm row).naranEskola ≠ "N/A"))).length

/-- Number of input rows whose municipality and school name are both
non-missing in the spec sense: neither blank nor the `'N/A'`
sentinel. -/
def bothNonMissing (cm : ColumnMapping) (rows : List (List String)) : Nat :=
  (rows.filter (fun row =>
    decide ((extractShared cm row).munisipiu ≠ "" ∧
      (extractShared cm row).munisipiu ≠ "N/A" ∧
      (extractShared cm row).naranEskola ≠ "" ∧
      (extractShared cm row).naranEskola ≠ "N/A"))).length

/-- Nested lookup in the cross-tab structure (0 when absent). -/
def lookup2 : List (String × List (String × Nat)) → String → String → Nat
  | [], _, _ => 0
  | (x, inner) :: rest, a, b => if x = a then lookupD inner b 0 else lookup2 rest a b

/-- The ids of the detail records one row emits: one record per subject
slot whose trimmed name cell is non-empty, with synthetic id `"i-k"`. -/
def rowIds (cm : ColumnMapping) (i : Nat) (row : List String) : List String :=
  ([1, 2, 3].filter (fun k => decide (slotName cm row k ≠ ""))).map (mkId i)

/-- The ids of all detail records the input emits, row by row. -/
def idsFrom (cm : ColumnMapping) : Nat → List (List String) → List String
  | _, [] => []
  | i, row :: rest => rowIds cm i row ++ idsFrom cm (i + 1) rest

/-! ### Header cleaning, modelled from the spec -/

/-- Modelled from the spec: removal of parenthesized annotations from a
header (the header-cleaning code is absent from `src/`; the script
hard-codes `COLUMN_MAPPING` instead of deriving it from header text).
The counter `d` tracks parenthesis nesting depth. -/
def stripParens : List Char → Nat → List Char
  | [], _ => []
  | c :: rest, d =>
    if c = '(' then stripParens rest (d + 1)
    else if c = ')' then stripParens rest (d - 1)
    else if d = 0 then c :: stripParens rest d
    else stripParens rest d

/-- Modelled from the spec: header cleaning — strip any text after a
line break, strip parenthesized annotations, strip emphasis markers
(`*`), then trim surrounding whitespace. -/
def cleanHeader (s : String) : String :=
  pyStrip (String.mk
    ((stripParens (s.data.takeWhile (fun c => decide (c ≠ '\n'))) 0).filter
      (fun c => decide (c ≠ '*'))))

/-- Modelled from the spec: disambiguation of colliding cleaned headers.
`seen` counts earlier occurrences of each name; a first occurrence
keeps its plain name, the (j+1)-st occurrence becomes `name_j`. -/
def dedupeAux : List String → List (String × Nat) → List String
  | [], _ => []
  | h :: t, seen =>
    (if lookupD seen h 0 = 0 then h
     else h ++ "_" ++ toString (lookupD seen h 0)) :: dedupeAux t (bump seen h)

/-- Modelled from the spec: unique logical column names from a cleaned
header row. -/
def dedupeHeaders (hs : List String) : List String := dedupeAux hs []

/-! ### Concrete inputs used in counterexamples and witnesses -/

/-- A mapping with only the first subject's name and age columns. -/
def cmAge : ColumnMapping := { cmNone with naranKanorin1 := some 0, idade1 := some 1 }

/-- A mapping with only the school-level column. -/
def cmLevel : ColumnMapping := { cmNone with nivelEskola := some 0 }

/-- A mapping with only the municipality and school-name columns. -/
def cmCross : ColumnMapping := { cmNone with munisipiu := some 0, naranEskola := some 1 }

/-- A mapping with the three subject-name columns. -/
def cmSlots : ColumnMapping :=
  { cmNone with naranKanorin1 := some 0, naranKanorin2 := some 1, naranKanorin3 := some 2 }

/-- A mapping with the first subject's name and sex columns. -/
def cmGender : ColumnMapping := { cmNone with naranKanorin1 := some 0, seksu1 := some 1 }

/-- Rows for the cross-tab witness: two submissions for (Dili, S1) and
one for (Aileu, S2). -/
def rowsCross : List (List String) := [["Dili", "S1"], ["Dili", "S1"], ["Aileu", "S2"]]

/-- Rows for the subject-slot witness: slot 2 of row 0 and slots 1 and 3
of row 1 have empty names. -/
def rowsSlots : List (List String) := [["Ana", "", "Bo"], ["", "Cy", ""]]

/-- Rows for the top-10 witness: municipality b once, a twice, c once
(a tie between b and c broken by first encounter). -/
def rowsTop : List (List String) := [["b"], ["a"], ["a"], ["c"]]

/-! ### Lemmas about the stable sort -/

theorem insertLe_perm (le : α → α → Bool) (x : α) :
    ∀ l : List α, List.Perm (insertLe le x l) (x :: l)
  | [] => .refl _
  | y :: ys => by
    simp only [insertLe]
    split
    · exact .refl _
    · exact ((insertLe_perm le x ys).cons y).trans (.swap x y ys)

theorem sortLe_perm (le : α → α → Bool) : ∀ l : List α, List.Perm (sortLe le l) l
  | [] => .refl _
  | x :: xs => (insertLe_perm le x (sortLe le xs)).trans ((sortLe_perm le xs).cons x)

theorem mem_insertLe {le : α → α → Bool} {x a : α} {l : List α} :
    a ∈ insertLe le x l ↔ a = x ∨ a ∈ l := by
  rw [(insertLe_perm le x l).mem_iff, List.mem_cons]

theorem mem_sortLe {le : α → α → Bool} {a : α} {l : List α} :
    a ∈ sortLe le l ↔ a ∈ l :=
  (sortLe_perm le l).mem_iff

theorem pairwise_insertLe {le : α → α → Bool}
    (trans : ∀ a b c, le a b = true → le b c = true → le a c = true)
    (total : ∀ a b, le a b = true ∨ le b a = true) (x : α) :
    ∀ {l : List α}, l.Pairwise (le · · = true) →
      (insertLe le x l).Pairwise (le · · = true) := by
  intro l
  induction l with
  | nil => intro; simp [insertLe]
  | cons y ys ih =>
    intro h
    rw [List.pairwise_cons] at h
    simp only [insertLe]
    split
    · rename_i hxy
      refine List.Pairwise.cons ?_ (List.Pairwise.cons h.1 h.2)
      intro z hz
      rcases List.mem_cons.1 hz with rfl | hz
      · exact hxy
      · exact trans x y z hxy (h.1 z hz)
    · rename_i hxy
      refine List.Pairwise.cons ?_ (ih h.2)
      intro z hz
      rcases mem_insertLe.1 hz with rfl | hz
      · rcases total y z with h' | h'
        · exact h'
        · exact absurd h' hxy
      · exact h.1 z hz

theorem sortLe_sorted {le : α → α → Bool}
    (trans : ∀ a b c, le a b = true → le b c = true → le a c = true)
    (total : ∀ a b, le a b = true ∨ le b a = true) :
    ∀ l : List α, (sortLe le l).Pairwise (le · · = true)
  | [] => .nil
  | x :: xs => pairwise_insertLe trans total x (sortLe_sorted trans total xs)

theorem filter_insertLe_pos {le : α → α → Bool} {p : α → Bool} {x : α}
    (hpx : p x = true) (hxy : ∀ y, p y = true → le x y = true) :
    ∀ l : List α, (insertLe le x l).filter p = x :: l.filter p := by
  intro l
  induction l with
  | nil => simp [insertLe, hpx]
  | cons y ys ih =>
    simp only [insertLe]
    split
    · simp [List.filter, hpx]
    · rename_i hxy'
      have hpy : p y = false := by
        cases hy : p y
        · rfl
        · exact absurd (hxy y hy) hxy'
      simp [List.filter, hpy, ih]

theorem filter_insertLe_neg {le : α → α → Bool} {p : α → Bool} {x : α}
    (hpx : p x = false) :
    ∀ l : List α, (insertLe le x l).filter p = l.filter p := by
  intro l
  induction l with
  | nil => simp [insertLe, hpx]
  | cons y ys ih =>
    simp only [insertLe]
    split
    · simp [List.filter, hpx]
    · simp only [List.filter, ih]

/-- Stability of the sort, filter form: the subsequence of elements of a
single tie class is untouched. -/
theorem filter_sortLe {le : α → α → Bool} {p : α → Bool}
    (hp : ∀ a b, p a = true → p b = true → le a b = true) :
    ∀ l : List α, (sortLe le l).filter p = l.filter p := by
  intro l
  induction l with
  | nil => rfl
  | cons x xs ih =>
    show (insertLe le x (sortLe le xs)).filter p = (x :: xs).filter p
    cases hx : p x
    · rw [filter_insertLe_neg hx, ih]
      simp [List.filter, hx]
    · rw [filter_insertLe_pos hx (fun y hy => hp x y hx hy), ih]
      simp [List.filter, hx]

/-! ### Lemmas about the comparison functions -/

theorem charListLt_asymm :
    ∀ as bs, charListLt as bs = true → charListLt bs as = false
  | [], [] => by simp [charListLt]
  | [], _ :: _ => by simp [charListLt]
  | _ :: _, [] => by simp [charListLt]
  | a :: as, b :: bs => by
    simp only [charListLt]
    by_cases h1 : a.toNat < b.toNat
    · have h2 : ¬ b.toNat < a.toNat := by omega
      simp [h1, h2]
    · by_cases h2 : b.toNat < a.toNat
      · simp [h1, h2]
      · simp [h1, h2]
        exact charListLt_asymm as bs

theorem charListLt_right :
    ∀ bs as cs, charListLt cs as = true →
      charListLt cs bs = true ∨ charListLt bs as = true
  | _, [], [] => by simp [charListLt]
  | _, [], _ :: _ => by simp [charListLt]
  | bs, a :: as, [] => by
    cases bs with
    | nil => intro _; exact .inr rfl
    | cons b bs => intro _; exact .inl rfl
  | [], a :: as, c :: cs => fun _ => .inr rfl
  | b :: bs, a :: as, c :: cs => by
    intro h
    simp only [charListLt] at h ⊢
    by_cases hcb : c.toNat < b.toNat
    · exact .inl (by simp [hcb])
    · by_cases hba : b.toNat < a.toNat
      · exact .inr (by simp [hba])
      · have hca : ¬ c.toNat < a.toNat := by omega
        have hac : ¬ a.toNat < c.toNat := by
          intro hac
          rw [if_neg hca, if_pos hac] at h
          exact Bool.false_ne_true h
        rw [if_neg hca, if_neg hac] at h
        have hbc : ¬ b.toNat < c.toNat := by omega
        have hab : ¬ a.toNat < b.toNat := by omega
        rcases charListLt_right bs as cs h with h' | h'
        · exact .inl (by rw [if_neg hcb, if_neg hbc]; exact h')
        · exact .inr (by rw [if_neg hba, if_neg hab]; exact h')

theorem charListLe_total (as bs : List Char) :
    charListLe as bs = true ∨ charListLe bs as = true := by
  simp only [charListLe, Bool.not_eq_true']
  cases h : charListLt bs as
  · exact .inl rfl
  · exact .inr (charListLt_asymm bs as h)

theorem charListLe_trans {as bs cs : List Char}
    (h1 : charListLe as bs = true) (h2 : charListLe bs cs = true) :
    charListLe as cs = true := by
  simp only [charListLe, Bool.not_eq_true'] at h1 h2 ⊢
  cases h : charListLt cs as
  · rfl
  · rcases charListLt_right bs as cs h with h' | h'
    · rw [h'] at h2; exact h2
    · rw [h'] at h1; exact h1

theorem strLeB_trans {a b c : String}
    (h1 : strLeB a b = true) (h2 : strLeB b c = true) : strLeB a c = true :=
  charListLe_trans h1 h2

theorem strLeB_total (a b : String) : strLeB a b = true ∨ strLeB b a = true :=
  charListLe_total a.data b.data

theorem intLeB_trans {a b c : Int}
    (h1 : intLeB a b = true) (h2 : intLeB b c = true) : intLeB a c = true := by
  simp only [intLeB, decide_eq_true_eq] at h1 h2 ⊢
  omega

theorem intLeB_total (a b : Int) : intLeB a b = true ∨ intLeB b a = true := by
  simp only [intLeB, decide_eq_true_eq]
  omega

theorem descCountB_trans {a b c : String × Nat}
    (h1 : descCountB a b = true) (h2 : descCountB b c = true) :
    descCountB a c = true := by
  simp only [descCountB, decide_eq_true_eq] at h1 h2 ⊢
  omega

theorem descCountB_total (a b : String × Nat) :
    descCountB a b = true ∨ descCountB b a = true := by
  simp only [descCountB, decide_eq_true_eq]
  omega

theorem char_toNat_inj {a b : Char} (h : a.toNat = b.toNat) : a = b := by
  have := congrArg Char.ofNat h
  simpa using this

theorem charListLt_connex :
    ∀ as bs : List Char, as ≠ bs → charListLt as bs = true ∨ charListLt bs as = true
  | [], [] => fun h => absurd rfl h
  | [], _ :: _ => fun _ => .inl rfl
  | _ :: _, [] => fun _ => .inr rfl
  | a :: as, b :: bs => by
    intro h
    by_cases h1 : a.toNat < b.toNat
    · exact .inl (by simp [charListLt, h1])
    · by_cases h2 : b.toNat < a.toNat
      · exact .inr (by simp [charListLt, h2])
      · have hab : a = b := char_toNat_inj (by omega)
        subst hab
        have : as ≠ bs := by
          intro h'
          exact h (by rw [h'])
        rcases charListLt_connex as bs this with h' | h'
        · exact .inl (by simp [charListLt, h1, h2]; exact h')
        · exact .inr (by simp [charListLt, h1, h2]; exact h')

theorem charListLt_trans :
    ∀ as bs cs : List Char, charListLt as bs = true → charListLt bs cs = true →
      charListLt as cs = true
  | as, [], cs => by
    intro h1 _
    exfalso
    cases as <;> simp [charListLt] at h1
  | as, b :: bs, [] => by
    intro _ h2
    exact absurd h2 (by simp [charListLt])
  | [], b :: bs, c :: cs => fun _ _ => rfl
  | a :: as, b :: bs, c :: cs => by
    intro h1 h2
    simp only [charListLt] at h1 h2 ⊢
    by_cases hab : a.toNat < b.toNat
    · by_cases hbc : b.toNat < c.toNat
      · simp [show a.toNat < c.toNat by omega]
      · have hcb : ¬ c.toNat < b.toNat := by
          intro hcb
          rw [if_neg hbc, if_pos hcb] at h2
          exact Bool.false_ne_true h2
        simp [show a.toNat < c.toNat by omega]
    · have hba : ¬ b.toNat < a.toNat := by
        intro hba
        rw [if_neg hab, if_pos hba] at h1
        exact Bool.false_ne_true h1
      rw [if_neg hab, if_neg hba] at h1
      by_cases hbc : b.toNat < c.toNat
      · simp [show a.toNat < c.toNat by omega]
      · have hcb : ¬ c.toNat < b.toNat := by
          intro hcb
          rw [if_neg hbc, if_pos hcb] at h2
          exact Bool.false_ne_true h2
        rw [if_neg hbc, if_neg hcb] at h2
        have hac : ¬ a.toNat < c.toNat := by omega
        have hca : ¬ c.toNat < a.toNat := by omega
        rw [if_neg hac, if_neg hca]
        exact charListLt_trans as bs cs h1 h2

theorem strData_inj {a b : String} (h : a.data = b.data) : a = b := by
  cases a
  cases b
  exact congrArg String.mk h

theorem strLtB_trans {a b c : String}
    (h1 : strLtB a b = true) (h2 : strLtB b c = true) : strLtB a c = true :=
  charListLt_trans a.data b.data c.data h1 h2

theorem strLtB_connex {a b : String} (h : a ≠ b) :
    strLtB a b = true ∨ strLtB b a = true :=
  charListLt_connex a.data b.data (fun h' => h (strData_inj h'))

theorem strLtB_asymm {a b : String} (h : strLtB a b = true) : strLtB b a = false :=
  charListLt_asymm a.data b.data h

theorem strLtB_le {a b : String} (h : strLtB a b = true) : strLeB a b = true := by
  simp only [strLeB, charListLe, Bool.not_eq_true']
  exact strLtB_asymm h

theorem tableLeB_trans {a b c : SchoolMunRow}
    (h1 : tableLeB a b = true) (h2 : tableLeB b c = true) : tableLeB a c = true := by
  simp only [tableLeB] at h1 h2 ⊢
  by_cases hab : a.munisipiu = b.munisipiu
  · rw [if_pos hab] at h1
    by_cases hbc : b.munisipiu = c.munisipiu
    · rw [if_pos hbc] at h2
      rw [if_pos (hab.trans hbc)]
      exact strLeB_trans h1 h2
    · rw [if_neg hbc] at h2
      rw [if_neg (fun h => hbc (hab ▸ h)), hab]
      exact h2
  · rw [if_neg hab] at h1
    by_cases hbc : b.munisipiu = c.munisipiu
    · rw [if_neg (fun h => hab (hbc ▸ h)), ← hbc]
      exact h1
    · rw [if_neg hbc] at h2
      by_cases hac : a.munisipiu = c.munisipiu
      · exfalso
        rw [← hac] at h2
        have h3 := strLtB_asymm h1
        rw [h2] at h3
        exact Bool.noConfusion h3
      · rw [if_neg hac]
        exact strLtB_trans h1 h2

theorem tableLeB_total (a b : SchoolMunRow) :
    tableLeB a b = true ∨ tableLeB b a = true := by
  simp only [tableLeB]
  by_cases hab : a.munisipiu = b.munisipiu
  · rw [if_pos hab, if_pos hab.symm]
    exact strLeB_total a.naranEskola b.naranEskola
  · rw [if_neg hab, if_neg (fun h => hab h.symm)]
    exact strLtB_connex hab

/-! ### Lemmas about the insertion-ordered dict operations -/

theorem bump_map_fst (k : String) :
    ∀ m : List (String × Nat), (bump m k).map Prod.fst =
      if k ∈ m.map Prod.fst then m.map Prod.fst else m.map Prod.fst ++ [k]
  | [] => by simp [bump]
  | (a, n) :: rest => by
    by_cases h : a = k
    · subst h
      simp [bump]
    · have h' : ¬ k = a := fun h' => h h'.symm
      simp only [bump, if_neg h, List.map_cons, bump_map_fst k rest, List.mem_cons]
      by_cases hk : k ∈ rest.map Prod.fst
      · simp [hk, h']
      · simp [hk, h']

theorem bump_nodup {k : String} :
    ∀ {m : List (String × Nat)}, (m.map Prod.fst).Nodup → ((bump m k).map Prod.fst).Nodup := by
  intro m h
  rw [bump_map_fst]
  split
  · exact h
  · rename_i hk
    simp only [List.nodup_append, List.nodup_cons, List.nodup_nil]
    refine ⟨h, by simp, ?_⟩
    intro a ha hak
    simp only [List.mem_singleton] at hak
    exact hk (hak ▸ ha)

theorem lookupD_bump_self (k : String) :
    ∀ m : List (String × Nat), lookupD (bump m k) k 0 = lookupD m k 0 + 1
  | [] => by simp [bump, lookupD]
  | (a, n) :: rest => by
    by_cases h : a = k
    · subst h
      simp [bump, lookupD]
    · simp [bump, lookupD, h, lookupD_bump_self k rest]

theorem lookupD_bump_ne {k k' : String} (h : k' ≠ k) :
    ∀ m : List (String × Nat), lookupD (bump m k) k' 0 = lookupD m k' 0
  | [] => by
    have h' : ¬ k = k' := fun h' => h h'.symm
    simp [bump, lookupD, h']
  | (a, n) :: rest => by
    by_cases ha : a = k
    · subst ha
      have h' : ¬ a = k' := fun h' => h h'.symm
      simp [bump, lookupD, h']
    · simp only [bump, if_neg ha, lookupD]
      split
      · rfl
      · exact lookupD_bump_ne h rest

theorem sumSnd_bump (k : String) :
    ∀ m : List (String × Nat), sumSnd (bump m k) = sumSnd m + 1
  | [] => by simp [bump, sumSnd]
  | (a, n) :: rest => by
    by_cases h : a = k
    · subst h
      simp [bump, sumSnd]
      omega
    · simp only [bump, if_neg h, sumSnd, List.map_cons, List.sum_cons]
      have := sumSnd_bump k rest
      simp only [sumSnd] at this
      omega

theorem lookupD_eq_of_mem {k : String} {c : Nat} :
    ∀ {m : List (String × Nat)}, (m.map Prod.fst).Nodup → (k, c) ∈ m →
      lookupD m k 0 = c := by
  intro m
  induction m with
  | nil => intro _ h; cases h
  | cons p rest ih =>
    intro hnd hm
    obtain ⟨a, n⟩ := p
    rw [List.map_cons, List.nodup_cons] at hnd
    rcases List.mem_cons.1 hm with h | h
    · cases h
      simp [lookupD]
    · have hk : a ≠ k := by
        intro h'
        subst h'
        exact hnd.1 (List.mem_map.2 ⟨(a, c), h, rfl⟩)
      simp only [lookupD, if_neg hk]
      exact ih hnd.2 h

theorem map_lookupD_eq_map_snd :
    ∀ {m : List (String × Nat)}, (m.map Prod.fst).Nodup →
      (m.map Prod.fst).map (fun l => lookupD m l 0) = m.map Prod.snd := by
  intro m
  induction m with
  | nil => intro _; rfl
  | cons p rest ih =>
    intro hnd
    obtain ⟨a, n⟩ := p
    rw [List.map_cons, List.nodup_cons] at hnd
    simp only [List.map_cons, lookupD, if_pos rfl]
    congr 1
    have step : ∀ l ∈ rest.map Prod.fst,
        (if a = l then n else lookupD rest l 0) = lookupD rest l 0 := by
      intro l hl
      have hne : ¬ a = l := by
        intro h
        subst h
        exact hnd.1 hl
      rw [if_neg hne]
    rw [List.map_congr_left step, ih hnd.2]

theorem mem_addSet {s : List String} {k a : String} :
    a ∈ addSet s k ↔ a ∈ s ∨ a = k := by
  simp only [addSet]
  split
  · rename_i h
    constructor
    · exact .inl
    · rintro (h' | rfl)
      · exact h'
      · exact h
  · simp [List.mem_append]

/-! ### Decimal rendering of naturals (`Nat.repr`) and id injectivity -/

/-- The decimal digit characters of `n`, most significant first
(the specification of core's fuelled `Nat.toDigitsCore`). -/
def reprDigits (n : Nat) : List Char :=
  if n < 10 then [Nat.digitChar n]
  else reprDigits (n / 10) ++ [Nat.digitChar (n % 10)]
termination_by n
decreasing_by exact Nat.div_lt_self (by omega) (by omega)

theorem reprDigits_of_lt {n : Nat} (h : n < 10) : reprDigits n = [Nat.digitChar n] := by
  rw [reprDigits, if_pos h]

theorem reprDigits_of_ge {n : Nat} (h : ¬ n < 10) :
    reprDigits n = reprDigits (n / 10) ++ [Nat.digitChar (n % 10)] := by
  conv => lhs; rw [reprDigits]
  rw [if_neg h]

theorem toDigitsCore_eq :
    ∀ (fuel n : Nat) (ds : List Char), n < fuel →
      Nat.toDigitsCore 10 fuel n ds = reprDigits n ++ ds := by
  intro fuel
  induction fuel with
  | zero => omega
  | succ f ih =>
    intro n ds h
    rw [Nat.toDigitsCore]
    by_cases h0 : n / 10 = 0
    · have hn : n < 10 := by omega
      simp only [h0, if_pos rfl]
      rw [reprDigits_of_lt hn, Nat.mod_eq_of_lt hn]
      rfl
    · have hn : ¬ n < 10 := by omega
      simp only [if_neg h0]
      rw [ih (n / 10) _ (by omega), reprDigits_of_ge hn, List.append_assoc]
      rfl

theorem repr_data (n : Nat) : (Nat.repr n).data = reprDigits n := by
  show (Nat.toDigits 10 n).asString.data = reprDigits n
  rw [Nat.toDigits, toDigitsCore_eq (n + 1) n [] (by omega)]
  simp [List.asString]

theorem digitChar_isDigit {n : Nat} (h : n < 10) : (Nat.digitChar n).isDigit = true := by
  interval_cases n <;> decide

theorem digitChar_val {n : Nat} (h : n < 10) : (Nat.digitChar n).toNat - 48 = n := by
  interval_cases n <;> decide

theorem reprDigits_digits (n : Nat) : ∀ c ∈ reprDigits n, c.isDigit = true := by
  induction n using Nat.strong_induction_on with
  | _ n ih =>
    rw [reprDigits]
    split
    · rename_i h
      intro c hc
      rw [List.mem_singleton] at hc
      subst hc
      exact digitChar_isDigit h
    · rename_i h
      intro c hc
      rcases List.mem_append.1 hc with h' | h'
      · exact ih (n / 10) (Nat.div_lt_self (by omega) (by omega)) c h'
      · rw [List.mem_singleton] at h'
        subst h'
        exact digitChar_isDigit (Nat.mod_lt n (by omega))

/-- The value denoted by a decimal digit string. -/
def digitsVal (l : List Char) : Nat :=
  l.foldl (fun acc c => acc * 10 + (c.toNat - 48)) 0

theorem digitsVal_reprDigits (n : Nat) : digitsVal (reprDigits n) = n := by
  induction n using Nat.strong_induction_on with
  | _ n ih =>
    rw [reprDigits]
    split
    · rename_i h
      have := digitChar_val h
      simp only [digitsVal, List.foldl]
      omega
    · rename_i h
      rw [digitsVal, List.foldl_append]
      have h1 := ih (n / 10) (Nat.div_lt_self (by omega) (by omega))
      rw [digitsVal] at h1
      rw [h1]
      have h2 := digitChar_val (Nat.mod_lt n (by omega) : n % 10 < 10)
      simp only [List.foldl]
      omega

theorem reprDigits_inj {m n : Nat} (h : reprDigits m = reprDigits n) : m = n := by
  have := congrArg digitsVal h
  rwa [digitsVal_reprDigits, digitsVal_reprDigits] at this

theorem reprDigits_no_dash (n : Nat) : '-' ∉ reprDigits n := by
  intro h
  exact absurd (reprDigits_digits n _ h) (by decide)

theorem append_dash_inj :
    ∀ (a b t u : List Char), '-' ∉ a → '-' ∉ b →
      a ++ '-' :: t = b ++ '-' :: u → a = b ∧ t = u
  | [], [], t, u => by
    intro _ _ h
    simp only [List.nil_append, List.cons.injEq] at h
    exact ⟨rfl, h.2⟩
  | [], c :: b, t, u => by
    intro _ hb h
    simp only [List.nil_append, List.cons_append, List.cons.injEq] at h
    obtain ⟨h1, h2⟩ := h
    cases h1
    exact absurd (List.mem_cons_self _ _) hb
  | c :: a, [], t, u => by
    intro ha _ h
    simp only [List.nil_append, List.cons_append, List.cons.injEq] at h
    obtain ⟨h1, h2⟩ := h
    cases h1
    exact absurd (List.mem_cons_self _ _) ha
  | c :: a, d :: b, t, u => by
    intro ha hb h
    simp only [List.cons_append, List.cons.injEq] at h
    obtain ⟨rfl, h2⟩ := h
    have := append_dash_inj a b t u (fun h' => ha (List.mem_cons_of_mem _ h'))
      (fun h' => hb (List.mem_cons_of_mem _ h')) h2
    exact ⟨by rw [this.1], this.2⟩

theorem strAppend_data (a b : String) : (a ++ b).data = a.data ++ b.data := by
  cases a
  cases b
  rfl

theorem toString_nat (n : Nat) : toString n = Nat.repr n := rfl

theorem mkId_data (i k : Nat) : (mkId i k).data = reprDigits i ++ ('-' :: reprDigits k) := by
  rw [mkId, toString_nat, toString_nat, strAppend_data, strAppend_data, repr_data, repr_data]
  simp

theorem mkId_inj {i k j l : Nat} (h : mkId i k = mkId j l) : i = j ∧ k = l := by
  have hd := congrArg String.data h
  rw [mkId_data, mkId_data] at hd
  have := append_dash_inj (reprDigits i) (reprDigits j) (reprDigits k) (reprDigits l)
    (reprDigits_no_dash i) (reprDigits_no_dash j) hd
  exact ⟨reprDigits_inj this.1, reprDigits_inj this.2⟩

/-! ### Unfolding and preservation infrastructure for the row loop -/

theorem processData_eq (rows : List (List String)) (cm : ColumnMapping) :
    processData rows cm = match finalState rows cm with
      | .error e => .error e
      | .ok st => .ok (assemble st) := by
  cases rows <;> rfl

theorem genderStep_sharedView (s : String) (st : ProcState) :
    sharedView (genderStep s st) = sharedView st := by
  unfold genderStep
  split <;> rfl

theorem genderStep_age (s : String) (st : ProcState) :
    (genderStep s st).ageDistribution = st.ageDistribution := by
  unfold genderStep
  split <;> rfl

theorem genderStep_rows (s : String) (st : ProcState) :
    (genderStep s st).processedRows = st.processedRows := by
  unfold genderStep
  split <;> rfl

theorem ageStep_ok {a : String} {st st' : ProcState} (h : ageStep a st = .ok st') :
    sharedView st' = sharedView st ∧ st'.genderCounts = st.genderCounts ∧
      st'.processedRows = st.processedRows := by
  unfold ageStep at h
  split at h
  · split at h
    · cases h
      exact ⟨rfl, rfl, rfl⟩
    · cases h
      exact ⟨rfl, rfl, rfl⟩
    · cases h
  · cases h
    exact ⟨rfl, rfl, rfl⟩

theorem processSlot_ok_view {cm : ColumnMapping} {sh : Shared} {i k : Nat}
    {row : List String} {st st' : ProcState}
    (h : processSlot cm sh i k row st = .ok st') : sharedView st' = sharedView st := by
  unfold processSlot at h
  split at h
  · cases ha : ageStep (getCell row (slotCols cm k).2.2 "")
        (genderStep (getCell row (slotCols cm k).2.1 "") st) with
    | error e => rw [ha] at h; cases h
    | ok st2 =>
      rw [ha] at h
      cases h
      have h1 := (ageStep_ok ha).1
      rw [show sharedView { st2 with processedRows := st2.processedRows ++ [mkRecord cm sh i k row] } = sharedView st2 from rfl]
      rw [h1, genderStep_sharedView]
  · cases h
    rfl

theorem slotsStep_ok_view {cm : ColumnMapping} {sh : Shared} {i : Nat}
    {row : List String} {st st' : ProcState}
    (h : slotsStep cm sh i row st = .ok st') : sharedView st' = sharedView st := by
  unfold slotsStep at h
  cases h1 : processSlot cm sh i 1 row st with
  | error e => rw [h1] at h; cases h
  | ok s1 =>
    rw [h1] at h
    dsimp only at h
    cases h2 : processSlot cm sh i 2 row s1 with
    | error e => rw [h2] at h; cases h
    | ok s2 =>
      rw [h2] at h
      dsimp only at h
      rw [(processSlot_ok_view h : sharedView st' = sharedView s2),
        processSlot_ok_view h2, processSlot_ok_view h1]

theorem sharedStep_slotsView (sh : Shared) (st : ProcState) :
    slotsView (sharedStep sh st) = slotsView st := by
  unfold sharedStep
  split_ifs <;> rfl

theorem processRow_ok_view {cm : ColumnMapping} {i : Nat} {row : List String}
    {st st' : ProcState} (h : processRow cm i row st = .ok st') :
    sharedView st' = sharedView (sharedStep (extractShared cm row) st) :=
  slotsStep_ok_view h

/-- Any state observation satisfying a per-row fold equation satisfies
the corresponding fold equation over the whole loop. -/
theorem loop_fold {α} {cm : ColumnMapping} {f : ProcState → α}
    {g : Nat → List String → α → α}
    (hrow : ∀ i row st st', processRow cm i row st = .ok st' → f st' = g i row (f st)) :
    ∀ (rows : List (List String)) (i : Nat) (st st' : ProcState),
      processRowsFrom cm i rows st = .ok st' → f st' = foldIdx g i (f st) rows
  | [], i, st, st' => by
    intro h
    obtain rfl := Except.ok.inj h
    rfl
  | row :: rest, i, st, st' => by
    intro h
    simp only [processRowsFrom] at h
    cases hr : processRow cm i row st with
    | error e => rw [hr] at h; cases h
    | ok st1 =>
      rw [hr] at h
      rw [loop_fold hrow rest (i + 1) st1 st' h, foldIdx, hrow i row st st1 hr]

/-- Any property preserved by each row iteration is preserved by the
whole loop. -/
theorem loop_pres {cm : ColumnMapping} {P : ProcState → Prop}
    (hrow : ∀ i row st st', processRow cm i row st = .ok st' → P st → P st') :
    ∀ (rows : List (List String)) (i : Nat) (st st' : ProcState),
      processRowsFrom cm i rows st = .ok st' → P st → P st'
  | [], i, st, st' => by
    intro h hp
    obtain rfl := Except.ok.inj h
    exact hp
  | row :: rest, i, st, st' => by
    intro h hp
    simp only [processRowsFrom] at h
    cases hr : processRow cm i row st with
    | error e => rw [hr] at h; cases h
    | ok st1 =>
      rw [hr] at h
      exact loop_pres hrow rest (i + 1) st1 st' h (hrow i row st st1 hr hp)

/-- Property preservation through the three subject slots of one row. -/
theorem slots_pres {cm : ColumnMapping} {sh : Shared} {i : Nat} {row : List String}
    {P : ProcState → Prop}
    (hk : ∀ k st st', processSlot cm sh i k row st = .ok st' → P st → P st') :
    ∀ st st', slotsStep cm sh i row st = .ok st' → P st → P st' := by
  intro st st' h hp
  unfold slotsStep at h
  cases h1 : processSlot cm sh i 1 row st with
  | error e => rw [h1] at h; cases h
  | ok s1 =>
    rw [h1] at h
    dsimp only at h
    cases h2 : processSlot cm sh i 2 row s1 with
    | error e => rw [h2] at h; cases h
    | ok s2 =>
      rw [h2] at h
      dsimp only at h
      exact hk 3 s2 st' h (hk 2 s1 s2 h2 (hk 1 st s1 h1 hp))

/-- Fold-equation version for the three subject slots of one row. -/
theorem slots_fold {α} {cm : ColumnMapping} {sh : Shared} {i : Nat} {row : List String}
    {f : ProcState → α} {g : Nat → α → α}
    (hk : ∀ k st st', processSlot cm sh i k row st = .ok st' → f st' = g k (f st)) :
    ∀ st st', slotsStep cm sh i row st = .ok st' → f st' = g 3 (g 2 (g 1 (f st))) := by
  intro st st' h
  unfold slotsStep at h
  cases h1 : processSlot cm sh i 1 row st with
  | error e => rw [h1] at h; cases h
  | ok s1 =>
    rw [h1] at h
    dsimp only at h
    cases h2 : processSlot cm sh i 2 row s1 with
    | error e => rw [h2] at h; cases h
    | ok s2 =>
      rw [h2] at h
      dsimp only at h
      rw [hk 3 s2 st' h, hk 2 s1 s2 h2, hk 1 st s1 h1]

/-! ### Projection helpers -/

theorem sharedStep_gender (sh : Shared) (st : ProcState) :
    (sharedStep sh st).genderCounts = st.genderCounts :=
  congrArg (fun v => v.1) (sharedStep_slotsView sh st)

theorem sharedStep_age (sh : Shared) (st : ProcState) :
    (sharedStep sh st).ageDistribution = st.ageDistribution :=
  congrArg (fun v => v.2.1) (sharedStep_slotsView sh st)

theorem sharedStep_rows (sh : Shared) (st : ProcState) :
    (sharedStep sh st).processedRows = st.processedRows :=
  congrArg (fun v => v.2.2) (sharedStep_slotsView sh st)

theorem view_uniqueMun {st st' : ProcState} (h : sharedView st' = sharedView st) :
    st'.uniqueMunicipalities = st.uniqueMunicipalities :=
  congrArg (fun v => v.1) h

theorem view_munCounts {st st' : ProcState} (h : sharedView st' = sharedView st) :
    st'.municipalityChartCounts = st.municipalityChartCounts :=
  congrArg (fun v => v.2.2.2.1) h

theorem view_dixCounts {st st' : ProcState} (h : sharedView st' = sharedView st) :
    st'.disciplineChartCounts = st.disciplineChartCounts :=
  congrArg (fun v => v.2.2.2.2.1) h

theorem view_levelCounts {st st' : ProcState} (h : sharedView st' = sharedView st) :
    st'.schoolLevelCounts = st.schoolLevelCounts :=
  congrArg (fun v => v.2.2.2.2.2.1) h

theorem view_cross {st st' : ProcState} (h : sharedView st' = sharedView st) :
    st'.schoolMunicipalityCounts = st.schoolMunicipalityCounts :=
  congrArg (fun v => v.2.2.2.2.2.2) h

/-! ### Behaviour of the slot steps on the slot-owned fields -/

theorem mem_bump {p : String × Nat} {k : String} :
    ∀ {m : List (String × Nat)}, p ∈ bump m k → p.1 = k ∨ p ∈ m
  | [] => by
    intro h
    rw [bump] at h
    rcases List.mem_singleton.1 h with rfl
    exact .inl rfl
  | (a, n) :: rest => by
    intro h
    rw [bump] at h
    split at h
    · rename_i ha
      rcases List.mem_cons.1 h with rfl | h'
      · exact .inl ha
      · exact .inr (List.mem_cons_of_mem _ h')
    · rcases List.mem_cons.1 h with rfl | h'
      · exact .inr (List.mem_cons_self _ _)
      · rcases mem_bump h' with h'' | h''
        · exact .inl h''
        · exact .inr (List.mem_cons_of_mem _ h'')

theorem ageStep_cases {a : String} {st st' : ProcState} (h : ageStep a st = .ok st') :
    st'.ageDistribution = st.ageDistribution ∨
      ∃ n : Int, st'.ageDistribution = bump st.ageDistribution (toString n) := by
  unfold ageStep at h
  split at h
  · split at h
    · rename_i n heq
      obtain rfl := Except.ok.inj h
      exact .inr ⟨n, rfl⟩
    · obtain rfl := Except.ok.inj h
      exact .inl rfl
    · cases h
  · obtain rfl := Except.ok.inj h
    exact .inl rfl

theorem processSlot_age {cm : ColumnMapping} {sh : Shared} {i k : Nat}
    {row : List String} {st st' : ProcState}
    (h : processSlot cm sh i k row st = .ok st') :
    st'.ageDistribution = st.ageDistribution ∨
      ∃ n : Int, st'.ageDistribution = bump st.ageDistribution (toString n) := by
  unfold processSlot at h
  split at h
  · cases ha : ageStep (getCell row (slotCols cm k).2.2 "")
        (genderStep (getCell row (slotCols cm k).2.1 "") st) with
    | error e => rw [ha] at h; cases h
    | ok st2 =>
      rw [ha] at h
      obtain rfl := Except.ok.inj h
      have hage := ageStep_cases ha
      rw [genderStep_age] at hage
      exact hage
  · obtain rfl := Except.ok.inj h
    exact .inl rfl

/-! ### Certification of the digit-string predicate -/

theorem reprDigits_ne_nil (n : Nat) : reprDigits n ≠ [] := by
  by_cases h : n < 10
  · rw [reprDigits_of_lt h]
    simp
  · rw [reprDigits_of_ge h]
    simp

theorem isNatString_toString (n : Nat) : isNatString (toString n) = true := by
  rw [isNatString, toString_nat, repr_data, Bool.and_eq_true]
  refine ⟨?_, ?_⟩
  · simp [reprDigits_ne_nil n]
  · rw [List.all_eq_true]
    intro c hc
    exact reprDigits_digits n c hc

/-! ### Claim C5 -/

/-- Claim C5: on an empty input row sequence `process_data` returns the
fully populated summary (every output key of the non-empty case is a
field of `Result`), with all counts zero, all lists and mappings empty,
and both filter option lists exactly `["All"]`. -/
theorem processData_empty (cm : ColumnMapping) :
    ∃ r : Result, processData [] cm = .ok r ∧
      r.totalMunicipality = 0 ∧ r.totalGender = 0 ∧ r.totalDiscipline = 0 ∧
      r.totalTopiku = 0 ∧ r.municipalityChartData = ⟨[], []⟩ ∧
      r.genderChartData = ⟨[], [], []⟩ ∧ r.ageDistribution = [] ∧
      r.ageChartData = ⟨[], []⟩ ∧ r.schoolLevelCounts = [] ∧
      r.schoolLevelChartData = ⟨[], []⟩ ∧ r.schoolMunicipalityTableData = [] ∧
      r.disciplineCounts = [] ∧ r.disciplineChartData = ⟨[], []⟩ ∧
      r.allNivelEskolaOptions = ["All"] ∧ r.allMunisipiuOptions = ["All"] ∧
      r.detailedTableData = [] ∧ r.municipalityPieChartData = ⟨[], []⟩ :=
  ⟨emptyResult, rfl, rfl, rfl, rfl, rfl, rfl, rfl, rfl, rfl, rfl, rfl, rfl, rfl, rfl,
    rfl, rfl, rfl, rfl⟩

/-! ### Claim C6 -/

/-- Claim C6 (the code violates it): an age cell holding `"inf"` makes
`int(float(idade))` raise `OverflowError`, which the
`except (ValueError, TypeError)` handler does not catch, so the
exception escapes `process_data` and the remaining rows (here
`["Bea", "7"]`) are never aggregated — contrary to the policy that a
bad cell degrades to the missing sentinel and processing continues. -/
theorem overflow_aborts :
    processData [["Ana", "inf"], ["Bea", "7"]] cmAge = .error .overflowError := rfl

/-! ### Claim C10 -/

/-- Claim C10 (the code violates it): with school levels B, A, A the
chart labels are sorted to `["A", "B"]` but the data list is built by
iterating the counts dict in insertion order (line 199), giving
`[1, 2]` = [count of B, count of A]; so `data[0] = 1` differs from the
occurrence count 2 of `labels[0] = "A"`. -/
theorem schoolLevelChart_misaligned :
    (resultOr (processData [["B"], ["A"], ["A"]] cmLevel)).schoolLevelChartData =
      ⟨["A", "B"], [1, 2]⟩ ∧
    lookupD (resultOr (processData [["B"], ["A"], ["A"]] cmLevel)).schoolLevelCounts "A" 0
      = 2 ∧
    lookupD (resultOr (processData [["B"], ["A"], ["A"]] cmLevel)).schoolLevelCounts "B" 0
      = 1 :=
  ⟨by decide, by decide, by decide⟩

/-! ### Claim C2 -/

/-- Claim C2 (counterexample): the age cell `"-5"` parses as a number,
and the key `"-5"` — which is not the decimal string of a non-negative
integer — appears in the returned age distribution. -/
theorem ageDistribution_negative_key :
    (resultOr (processData [["Ana", "-5"]] cmAge)).ageDistribution = [("-5", 1)] ∧
    isNatString "-5" = false :=
  ⟨by decide, by decide⟩

/-- Claim C2 (amended): every key of the `ageDistribution` mapping
returned by `process_data` is the decimal string of an integer —
possibly negative — and cells whose age value does not parse as a
number contribute no key. -/
theorem ageDistribution_keys_int (rows : List (List String)) (cm : ColumnMapping)
    (r : Result) (h : processData rows cm = .ok r) :
    ∀ p ∈ r.ageDistribution, ∃ n : Int, p.1 = toString n := by
  rw [processData_eq] at h
  cases hf : finalState rows cm with
  | error e => rw [hf] at h; cases h
  | ok st =>
    rw [hf] at h
    dsimp only at h
    obtain rfl := Except.ok.inj h
    show ∀ p ∈ st.ageDistribution, ∃ n : Int, p.1 = toString n
    refine loop_pres
      (P := fun s => ∀ p ∈ s.ageDistribution, ∃ n : Int, p.1 = toString n)
      ?_ rows 0 initState st hf (by intro p hp; cases hp)
    intro i row s s' hr hp
    refine slots_pres
      (P := fun u => ∀ p ∈ u.ageDistribution, ∃ n : Int, p.1 = toString n)
      (fun k t t' hk hp' => ?_)
      (sharedStep (extractShared cm row) s) s' hr ?_
    · rcases processSlot_age hk with he | ⟨n, he⟩
      · rw [he]
        exact hp'
      · rw [he]
        intro p hp''
        rcases mem_bump hp'' with h1 | h1
        · exact ⟨n, h1⟩
        · exact hp' p h1
    · show ∀ p ∈ (sharedStep (extractShared cm row) s).ageDistribution, ∃ n : Int, p.1 = toString n
      rw [sharedStep_age]
      exact hp

/-- Witness for the amended C2 at a concrete input: the key `"7"`
produced by age cell `"7"` is the decimal string of an integer. -/
theorem ageDistribution_keys_int_witness :
    ∃ n : Int, (("7", 1) : String × Nat).1 = toString n :=
  ageDistribution_keys_int [["Ana", "7"]] cmAge
    (resultOr (processData [["Ana", "7"]] cmAge)) rfl ("7", 1) (by decide)

/-! ### Case analyses of the submission-level updates -/

theorem mem_bump_fst {k' k : String} {m : List (String × Nat)}
    (h : k' ∈ (bump m k).map Prod.fst) : k' ∈ m.map Prod.fst ∨ k' = k := by
  rw [bump_map_fst] at h
  split at h
  · exact .inl h
  · rcases List.mem_append.1 h with h | h
    · exact .inl h
    · exact .inr (List.mem_singleton.1 h)

theorem sharedStep_munCounts (sh : Shared) (st : ProcState) :
    (sharedStep sh st).municipalityChartCounts = st.municipalityChartCounts ∨
      (sh.munisipiu ≠ "" ∧ sh.munisipiu ≠ "N/A" ∧
       (sharedStep sh st).municipalityChartCounts =
         bump st.municipalityChartCounts sh.munisipiu) := by
  by_cases hd : sh.munisipiu ≠ "" ∧ sh.munisipiu ≠ "N/A"
  · refine .inr ⟨hd.1, hd.2, ?_⟩
    unfold sharedStep
    simp only [if_pos hd]
    split_ifs <;> rfl
  · refine .inl ?_
    unfold sharedStep
    simp only [if_neg hd]
    split_ifs <;> rfl

theorem sharedStep_uniqueMun (sh : Shared) (st : ProcState) :
    (sharedStep sh st).uniqueMunicipalities = st.uniqueMunicipalities ∨
      (sh.munisipiu ≠ "" ∧ sh.munisipiu ≠ "N/A" ∧
       (sharedStep sh st).uniqueMunicipalities =
         addSet st.uniqueMunicipalities sh.munisipiu) := by
  by_cases hd : sh.munisipiu ≠ "" ∧ sh.munisipiu ≠ "N/A"
  · refine .inr ⟨hd.1, hd.2, ?_⟩
    unfold sharedStep
    simp only [if_pos hd]
    split_ifs <;> rfl
  · refine .inl ?_
    unfold sharedStep
    simp only [if_neg hd]
    split_ifs <;> rfl

theorem sharedStep_dixCounts (sh : Shared) (st : ProcState) :
    (sharedStep sh st).disciplineChartCounts = st.disciplineChartCounts ∨
      (sh.dixiplina ≠ "" ∧ sh.dixiplina ≠ "N/A" ∧
       (sharedStep sh st).disciplineChartCounts =
         bump st.disciplineChartCounts sh.dixiplina) := by
  by_cases hd : sh.dixiplina ≠ "" ∧ sh.dixiplina ≠ "N/A"
  · refine .inr ⟨hd.1, hd.2, ?_⟩
    unfold sharedStep
    simp only [if_pos hd]
    split_ifs <;> rfl
  · refine .inl ?_
    unfold sharedStep
    simp only [if_neg hd]
    split_ifs <;> rfl

theorem sharedStep_uniqueDix (sh : Shared) (st : ProcState) :
    (sharedStep sh st).uniqueDisciplines = st.uniqueDisciplines ∨
      (sh.dixiplina ≠ "" ∧ sh.dixiplina ≠ "N/A" ∧
       (sharedStep sh st).uniqueDisciplines = addSet st.uniqueDisciplines sh.dixiplina) := by
  by_cases hd : sh.dixiplina ≠ "" ∧ sh.dixiplina ≠ "N/A"
  · refine .inr ⟨hd.1, hd.2, ?_⟩
    unfold sharedStep
    simp only [if_pos hd]
    split_ifs <;> rfl
  · refine .inl ?_
    unfold sharedStep
    simp only [if_neg hd]
    split_ifs <;> rfl

theorem sharedStep_uniqueTopiku (sh : Shared) (st : ProcState) :
    (sharedStep sh st).uniqueTopiku = st.uniqueTopiku ∨
      (sh.topiku ≠ "" ∧ sh.topiku ≠ "N/A" ∧
       (sharedStep sh st).uniqueTopiku = addSet st.uniqueTopiku sh.topiku) := by
  by_cases hd : sh.topiku ≠ "" ∧ sh.topiku ≠ "N/A"
  · refine .inr ⟨hd.1, hd.2, ?_⟩
    unfold sharedStep
    simp only [if_pos hd]
    split_ifs <;> rfl
  · refine .inl ?_
    unfold sharedStep
    simp only [if_neg hd]
    split_ifs <;> rfl

theorem sharedStep_levelCounts (sh : Shared) (st : ProcState) :
    (sharedStep sh st).schoolLevelCounts = st.schoolLevelCounts ∨
      (sh.nivelEskola ≠ "" ∧ sh.nivelEskola ≠ "N/A" ∧
       (sharedStep sh st).schoolLevelCounts = bump st.schoolLevelCounts sh.nivelEskola) := by
  by_cases hd : sh.nivelEskola ≠ "" ∧ sh.nivelEskola ≠ "N/A"
  · refine .inr ⟨hd.1, hd.2, ?_⟩
    unfold sharedStep
    simp only [if_pos hd]
    split_ifs <;> rfl
  · refine .inl ?_
    unfold sharedStep
    simp only [if_neg hd]
    split_ifs <;> rfl

theorem sharedStep_cross (sh : Shared) (st : ProcState) :
    (sharedStep sh st).schoolMunicipalityCounts = st.schoolMunicipalityCounts ∨
      (sh.munisipiu ≠ "N/A" ∧ sh.naranEskola ≠ "N/A" ∧
       (sharedStep sh st).schoolMunicipalityCounts =
         bump2 st.schoolMunicipalityCounts sh.munisipiu sh.naranEskola) := by
  by_cases hd : sh.munisipiu ≠ "N/A" ∧ sh.naranEskola ≠ "N/A"
  · refine .inr ⟨hd.1, hd.2, ?_⟩
    unfold sharedStep
    simp only [if_pos hd]
    split_ifs <;> rfl
  · refine .inl ?_
    unfold sharedStep
    simp only [if_neg hd]
    split_ifs <;> rfl

theorem genderStep_cases (s : String) (st : ProcState) :
    (genderStep s st).genderCounts = st.genderCounts ∨
      (s ≠ "" ∧ s ≠ "N/A" ∧ (genderStep s st).genderCounts = bump st.genderCounts s) := by
  unfold genderStep
  split_ifs with h
  · exact .inr ⟨h.1, h.2, rfl⟩
  · exact .inl rfl

theorem processSlot_gender {cm : ColumnMapping} {sh : Shared} {i k : Nat}
    {row : List String} {st st' : ProcState}
    (h : processSlot cm sh i k row st = .ok st') :
    st'.genderCounts = st.genderCounts ∨
      ∃ s, s ≠ "" ∧ s ≠ "N/A" ∧ st'.genderCounts = bump st.genderCounts s := by
  unfold processSlot at h
  split at h
  · cases ha : ageStep (getCell row (slotCols cm k).2.2 "")
        (genderStep (getCell row (slotCols cm k).2.1 "") st) with
    | error e => rw [ha] at h; cases h
    | ok st2 =>
      rw [ha] at h
      obtain rfl := Except.ok.inj h
      have hg := (ageStep_ok ha).2.1
      show st2.genderCounts = st.genderCounts ∨ _
      rw [hg]
      rcases genderStep_cases (getCell row (slotCols cm k).2.1 "") st with he | ⟨h1, h2, he⟩
      · exact .inl he
      · exact .inr ⟨_, h1, h2, he⟩
  · obtain rfl := Except.ok.inj h
    exact .inl rfl

theorem bump2_inv {Q1 Q2 : String → Prop} {a b : String}
    (ha : Q1 a) (hb : Q2 b) :
    ∀ {m : List (String × List (String × Nat))},
      (∀ p ∈ m, Q1 p.1 ∧ ∀ q ∈ p.2, Q2 q.1) →
      ∀ p ∈ bump2 m a b, Q1 p.1 ∧ ∀ q ∈ p.2, Q2 q.1
  | [] => by
    intro _ p hp
    rw [bump2] at hp
    rcases List.mem_singleton.1 hp with rfl
    refine ⟨ha, ?_⟩
    intro q hq
    rcases List.mem_singleton.1 hq with rfl
    exact hb
  | (x, inner) :: rest => by
    intro hm p hp
    rw [bump2] at hp
    split at hp
    · rcases List.mem_cons.1 hp with rfl | hp'
      · refine ⟨(hm (x, inner) (List.mem_cons_self _ _)).1, ?_⟩
        intro q hq
        rcases mem_bump hq with h1 | h1
        · exact h1 ▸ hb
        · exact (hm (x, inner) (List.mem_cons_self _ _)).2 q h1
      · exact hm p (List.mem_cons_of_mem _ hp')
    · rcases List.mem_cons.1 hp with rfl | hp'
      · exact hm (x, inner) (List.mem_cons_self _ _)
      · exact bump2_inv ha hb (fun p hp => hm p (List.mem_cons_of_mem _ hp)) p hp'

theorem keys_inv_bump {m : List (String × Nat)} {a : String}
    (hm : ∀ k ∈ m.map Prod.fst, k ≠ "" ∧ k ≠ "N/A") (h1 : a ≠ "") (h2 : a ≠ "N/A") :
    ∀ k ∈ (bump m a).map Prod.fst, k ≠ "" ∧ k ≠ "N/A" := by
  intro k hk
  rcases mem_bump_fst hk with h | rfl
  · exact hm k h
  · exact ⟨h1, h2⟩

theorem keys_inv_addSet {s : List String} {a : String}
    (hm : ∀ k ∈ s, k ≠ "" ∧ k ≠ "N/A") (h1 : a ≠ "") (h2 : a ≠ "N/A") :
    ∀ k ∈ addSet s a, k ≠ "" ∧ k ≠ "N/A" := by
  intro k hk
  rcases mem_addSet.1 hk with h | rfl
  · exact hm k h
  · exact ⟨h1, h2⟩

/-! ### Claim C3 -/

/-- Claim C3 (counterexample): a whitespace-only municipality cell strips
to the blank value `""`, which passes the cross-tab guard of line 120
(`!= 'N/A'` only) and appears as a key of the municipality/school cross
tab in the returned table. -/
theorem crossTab_blank_key :
    (resultOr (processData [["  ", "X"]] cmCross)).schoolMunicipalityTableData =
      [⟨"", "X", 1⟩] := by decide

/-- Claim C3 (amended): blank and `'N/A'` values never appear as keys of
the municipality counts, discipline counts, school-level counts, gender
counts, or the unique municipality/discipline/topic sets; the
municipality-by-school cross tab excludes only the `'N/A'` sentinel —
blank values can appear as its keys. -/
theorem aggregates_exclude_missing (rows : List (List String)) (cm : ColumnMapping)
    (st : ProcState) (hf : finalState rows cm = .ok st) :
    (∀ k ∈ st.municipalityChartCounts.map Prod.fst, k ≠ "" ∧ k ≠ "N/A") ∧
    (∀ k ∈ st.uniqueMunicipalities, k ≠ "" ∧ k ≠ "N/A") ∧
    (∀ k ∈ st.disciplineChartCounts.map Prod.fst, k ≠ "" ∧ k ≠ "N/A") ∧
    (∀ k ∈ st.uniqueDisciplines, k ≠ "" ∧ k ≠ "N/A") ∧
    (∀ k ∈ st.uniqueTopiku, k ≠ "" ∧ k ≠ "N/A") ∧
    (∀ k ∈ st.schoolLevelCounts.map Prod.fst, k ≠ "" ∧ k ≠ "N/A") ∧
    (∀ k ∈ st.genderCounts.map Prod.fst, k ≠ "" ∧ k ≠ "N/A") ∧
    (∀ p ∈ st.schoolMunicipalityCounts, p.1 ≠ "N/A" ∧ ∀ q ∈ p.2, q.1 ≠ "N/A") := by
  refine loop_pres
    (P := fun u =>
      (∀ k ∈ u.municipalityChartCounts.map Prod.fst, k ≠ "" ∧ k ≠ "N/A") ∧
      (∀ k ∈ u.uniqueMunicipalities, k ≠ "" ∧ k ≠ "N/A") ∧
      (∀ k ∈ u.disciplineChartCounts.map Prod.fst, k ≠ "" ∧ k ≠ "N/A") ∧
      (∀ k ∈ u.uniqueDisciplines, k ≠ "" ∧ k ≠ "N/A") ∧
      (∀ k ∈ u.uniqueTopiku, k ≠ "" ∧ k ≠ "N/A") ∧
      (∀ k ∈ u.schoolLevelCounts.map Prod.fst, k ≠ "" ∧ k ≠ "N/A") ∧
      (∀ k ∈ u.genderCounts.map Prod.fst, k ≠ "" ∧ k ≠ "N/A") ∧
      (∀ p ∈ u.schoolMunicipalityCounts, p.1 ≠ "N/A" ∧ ∀ q ∈ p.2, q.1 ≠ "N/A"))
    ?_ rows 0 initState st hf
    ⟨by simp [initState], by simp [initState], by simp [initState], by simp [initState],
     by simp [initState], by simp [initState], by simp [initState], by simp [initState]⟩
  intro i row s s' hr hp
  obtain ⟨hp1, hp2, hp3, hp4, hp5, hp6, hp7, hp8⟩ := hp
  have hview := processRow_ok_view hr
  set sh := extractShared cm row with hsh
  refine ⟨?_, ?_, ?_, ?_, ?_, ?_, ?_, ?_⟩
  · rw [view_munCounts hview]
    rcases sharedStep_munCounts sh s with he | ⟨h1, h2, he⟩
    · rw [he]; exact hp1
    · rw [he]; exact keys_inv_bump hp1 h1 h2
  · rw [view_uniqueMun hview]
    rcases sharedStep_uniqueMun sh s with he | ⟨h1, h2, he⟩
    · rw [he]; exact hp2
    · rw [he]; exact keys_inv_addSet hp2 h1 h2
  · rw [view_dixCounts hview]
    rcases sharedStep_dixCounts sh s with he | ⟨h1, h2, he⟩
    · rw [he]; exact hp3
    · rw [he]; exact keys_inv_bump hp3 h1 h2
  · have : s'.uniqueDisciplines = (sharedStep sh s).uniqueDisciplines :=
      congrArg (fun v => v.2.1) hview
    rw [this]
    rcases sharedStep_uniqueDix sh s with he | ⟨h1, h2, he⟩
    · rw [he]; exact hp4
    · rw [he]; exact keys_inv_addSet hp4 h1 h2
  · have : s'.uniqueTopiku = (sharedStep sh s).uniqueTopiku :=
      congrArg (fun v => v.2.2.1) hview
    rw [this]
    rcases sharedStep_uniqueTopiku sh s with he | ⟨h1, h2, he⟩
    · rw [he]; exact hp5
    · rw [he]; exact keys_inv_addSet hp5 h1 h2
  · rw [view_levelCounts hview]
    rcases sharedStep_levelCounts sh s with he | ⟨h1, h2, he⟩
    · rw [he]; exact hp6
    · rw [he]; exact keys_inv_bump hp6 h1 h2
  · refine slots_pres
      (P := fun u => ∀ k ∈ u.genderCounts.map Prod.fst, k ≠ "" ∧ k ≠ "N/A")
      (fun k t t' hk hq => ?_) _ _ hr ?_
    · rcases processSlot_gender hk with he | ⟨sx, h1, h2, he⟩
      · rw [he]; exact hq
      · rw [he]; exact keys_inv_bump hq h1 h2
    · show ∀ k ∈ (sharedStep sh s).genderCounts.map Prod.fst, k ≠ "" ∧ k ≠ "N/A"
      rw [sharedStep_gender]
      exact hp7
  · rw [view_cross hview]
    rcases sharedStep_cross sh s with he | ⟨h1, h2, he⟩
    · rw [he]; exact hp8
    · rw [he]
      exact @bump2_inv (fun k => k ≠ "N/A") (fun k => k ≠ "N/A") _ _ h1 h2 _ hp8

/-- Witness for the amended C3 at a concrete input: the municipality
key "Dili" recorded for row `["Dili", "S1"]` is neither blank nor the
sentinel. -/
theorem aggregates_exclude_missing_witness :
    ("Dili" : String) ≠ "" ∧ ("Dili" : String) ≠ "N/A" :=
  (aggregates_exclude_missing [["Dili", "S1"]] cmCross
    (stateOr (finalState [["Dili", "S1"]] cmCross)) rfl).1 "Dili" (by decide)

/-! ### Claim C1 -/

theorem processSlot_genderSum {cm : ColumnMapping} {sh : Shared} {i k : Nat}
    {row : List String} {st st' : ProcState}
    (h : processSlot cm sh i k row st = .ok st')
    (hp : sumSnd st.genderCounts =
      (st.processedRows.filter (fun r => decide (r.seksu ≠ "N/A"))).length) :
    sumSnd st'.genderCounts =
      (st'.processedRows.filter (fun r => decide (r.seksu ≠ "N/A"))).length := by
  unfold processSlot at h
  split at h
  · cases ha : ageStep (getCell row (slotCols cm k).2.2 "")
        (genderStep (getCell row (slotCols cm k).2.1 "") st) with
    | error e => rw [ha] at h; cases h
    | ok st2 =>
      rw [ha] at h
      obtain rfl := Except.ok.inj h
      have hg := (ageStep_ok ha).2.1
      have hrows := (ageStep_ok ha).2.2
      show sumSnd st2.genderCounts =
        ((st2.processedRows ++ [mkRecord cm sh i k row]).filter
          (fun r => decide (r.seksu ≠ "N/A"))).length
      rw [hg, hrows, genderStep_rows, List.filter_append, List.length_append]
      by_cases hs : getCell row (slotCols cm k).2.1 "" ≠ "" ∧
          getCell row (slotCols cm k).2.1 "" ≠ "N/A"
      · have hrec : (mkRecord cm sh i k row).seksu = getCell row (slotCols cm k).2.1 "" := by
          show (if getCell row (slotCols cm k).2.1 "" ≠ "" then
            getCell row (slotCols cm k).2.1 "" else "N/A") = _
          rw [if_pos hs.1]
        have hfilter : ([mkRecord cm sh i k row].filter
            (fun r => decide (r.seksu ≠ "N/A"))).length = 1 := by
          rw [List.filter_singleton, hrec, decide_eq_true hs.2]
          rfl
        rw [hfilter]
        unfold genderStep
        rw [if_pos hs]
        show sumSnd (bump st.genderCounts (getCell row (slotCols cm k).2.1 "")) = _
        rw [sumSnd_bump, hp]
      · have hna : (mkRecord cm sh i k row).seksu = "N/A" := by
          show (if getCell row (slotCols cm k).2.1 "" ≠ "" then
            getCell row (slotCols cm k).2.1 "" else "N/A") = "N/A"
          by_cases he : getCell row (slotCols cm k).2.1 "" ≠ ""
          · have hval : getCell row (slotCols cm k).2.1 "" = "N/A" := by
              by_contra hne
              exact hs ⟨he, hne⟩
            rw [if_pos he, hval]
          · rw [if_neg he]
        have hfilter : ([mkRecord cm sh i k row].filter
            (fun r => decide (r.seksu ≠ "N/A"))).length = 0 := by
          rw [List.filter_singleton, hna]
          simp
        rw [hfilter]
        unfold genderStep
        rw [if_neg hs]
        show sumSnd st.genderCounts = _ + 0
        rw [hp]
        omega
  · obtain rfl := Except.ok.inj h
    exact hp

theorem processSlot_genderNodup {cm : ColumnMapping} {sh : Shared} {i k : Nat}
    {row : List String} {st st' : ProcState}
    (h : processSlot cm sh i k row st = .ok st')
    (hp : (st.genderCounts.map Prod.fst).Nodup) :
    (st'.genderCounts.map Prod.fst).Nodup := by
  rcases processSlot_gender h with he | ⟨s, _, _, he⟩
  · rw [he]; exact hp
  · rw [he]; exact bump_nodup hp

theorem sum_sorted_lookup {m : List (String × Nat)} (hnd : (m.map Prod.fst).Nodup) :
    ((sortLe strLeB (m.map Prod.fst)).map (fun l => lookupD m l 0)).sum = sumSnd m := by
  have hperm := (sortLe_perm strLeB (m.map Prod.fst)).map (fun l => lookupD m l 0)
  rw [hperm.sum_eq, map_lookupD_eq_map_snd hnd]
  rfl

/-- Claim C1: the `totalGender` value returned by `process_data` equals
the sum of the `genderChartData` data entries, and this total counts
individual subjects — one tally per emitted `SubjectRecord` whose sex
value is present (records with a missing sex value carry the `'N/A'`
sentinel and contribute no tally) — not submissions. -/
theorem totalGender_counts (rows : List (List String)) (cm : ColumnMapping)
    (r : Result) (h : processData rows cm = .ok r) :
    r.totalGender = r.genderChartData.data.sum ∧
    r.totalGender =
      (r.detailedTableData.filter (fun s => decide (s.seksu ≠ "N/A"))).length := by
  rw [processData_eq] at h
  cases hf : finalState rows cm with
  | error e => rw [hf] at h; cases h
  | ok st =>
    rw [hf] at h
    dsimp only at h
    obtain rfl := Except.ok.inj h
    have key : (sumSnd st.genderCounts =
        (st.processedRows.filter (fun r => decide (r.seksu ≠ "N/A"))).length) ∧
        (st.genderCounts.map Prod.fst).Nodup := by
      refine loop_pres
        (P := fun u => (sumSnd u.genderCounts =
          (u.processedRows.filter (fun r => decide (r.seksu ≠ "N/A"))).length) ∧
          (u.genderCounts.map Prod.fst).Nodup)
        ?_ rows 0 initState st hf ⟨rfl, List.nodup_nil⟩
      intro i row s s' hr hp
      refine slots_pres
        (P := fun u => (sumSnd u.genderCounts =
          (u.processedRows.filter (fun r => decide (r.seksu ≠ "N/A"))).length) ∧
          (u.genderCounts.map Prod.fst).Nodup)
        (fun k t t' hk hq => ⟨processSlot_genderSum hk hq.1, processSlot_genderNodup hk hq.2⟩)
        _ _ hr ?_
      show (sumSnd (sharedStep (extractShared cm row) s).genderCounts = _) ∧ _
      rw [sharedStep_gender, sharedStep_rows]
      exact hp
    constructor
    · show sumSnd st.genderCounts =
        ((sortLe strLeB (st.genderCounts.map Prod.fst)).map
          (fun l => lookupD st.genderCounts l 0)).sum
      rw [sum_sorted_lookup key.2]
    · exact key.1

/-- Witness for C1 at a concrete input (three subjects F, M, F):
totalGender is 3, the chart data sums to 3, and all three emitted
records carry a present sex value. -/
theorem totalGender_counts_witness :
    (resultOr (processData [["Ana", "F"], ["Bo", "M"], ["Cy", "F"]] cmGender)).totalGender =
      (resultOr (processData [["Ana", "F"], ["Bo", "M"], ["Cy", "F"]]
        cmGender)).genderChartData.data.sum ∧
    (resultOr (processData [["Ana", "F"], ["Bo", "M"], ["Cy", "F"]] cmGender)).totalGender =
      ((resultOr (processData [["Ana", "F"], ["Bo", "M"], ["Cy", "F"]]
        cmGender)).detailedTableData.filter (fun s => decide (s.seksu ≠ "N/A"))).length :=
  totalGender_counts [["Ana", "F"], ["Bo", "M"], ["Cy", "F"]] cmGender
    (resultOr (processData [["Ana", "F"], ["Bo", "M"], ["Cy", "F"]] cmGender)) rfl

/-! ### Claim C7 -/

theorem processSlot_ids {cm : ColumnMapping} {sh : Shared} {i k : Nat}
    {row : List String} {st st' : ProcState}
    (h : processSlot cm sh i k row st = .ok st') :
    st'.processedRows.map (fun s => s.id) = st.processedRows.map (fun s => s.id) ++
      (if slotName cm row k ≠ "" then [mkId i k] else []) := by
  unfold processSlot at h
  split at h
  · rename_i hname
    cases ha : ageStep (getCell row (slotCols cm k).2.2 "")
        (genderStep (getCell row (slotCols cm k).2.1 "") st) with
    | error e => rw [ha] at h; cases h
    | ok st2 =>
      rw [ha] at h
      obtain rfl := Except.ok.inj h
      have hrows := (ageStep_ok ha).2.2
      have hn : slotName cm row k ≠ "" := hname
      show (st2.processedRows ++ [mkRecord cm sh i k row]).map (fun s => s.id) = _
      rw [List.map_append, hrows, genderStep_rows, if_pos hn]
      rfl
  · rename_i hname
    obtain rfl := Except.ok.inj h
    have hn : ¬ slotName cm row k ≠ "" := hname
    rw [if_neg hn, List.append_nil]

theorem rowIds_eq (cm : ColumnMapping) (i : Nat) (row : List String) :
    rowIds cm i row =
      ((if slotName cm row 1 ≠ "" then [mkId i 1] else []) ++
       (if slotName cm row 2 ≠ "" then [mkId i 2] else [])) ++
      (if slotName cm row 3 ≠ "" then [mkId i 3] else []) := by
  unfold rowIds
  by_cases h1 : slotName cm row 1 ≠ "" <;>
    by_cases h2 : slotName cm row 2 ≠ "" <;>
      by_cases h3 : slotName cm row 3 ≠ "" <;>
        simp [List.filter, h1, h2, h3]

theorem processRow_ids {cm : ColumnMapping} {i : Nat} {row : List String}
    {st st' : ProcState} (h : processRow cm i row st = .ok st') :
    st'.processedRows.map (fun s => s.id) =
      st.processedRows.map (fun s => s.id) ++ rowIds cm i row := by
  have h3 := slots_fold
    (f := fun u => u.processedRows.map (fun s => s.id))
    (g := fun k a => a ++ (if slotName cm row k ≠ "" then [mkId i k] else []))
    (fun k t t' hk => processSlot_ids hk)
    (sharedStep (extractShared cm row) st) st' h
  dsimp only at h3
  rw [h3]
  show (((sharedStep (extractShared cm row) st).processedRows.map (fun s => s.id) ++ _) ++ _) ++ _ = _
  rw [sharedStep_rows, rowIds_eq, List.append_assoc, List.append_assoc,
    List.append_assoc]

theorem foldIdx_ids (cm : ColumnMapping) :
    ∀ (rows : List (List String)) (i : Nat) (a : List String),
      foldIdx (fun i row a => a ++ rowIds cm i row) i a rows = a ++ idsFrom cm i rows
  | [], i, a => by simp [foldIdx, idsFrom]
  | row :: rest, i, a => by
    rw [foldIdx, foldIdx_ids cm rest (i + 1), idsFrom, List.append_assoc]

theorem mem_rowIds {cm : ColumnMapping} {i : Nat} {row : List String} {s : String}
    (h : s ∈ rowIds cm i row) : ∃ k, s = mkId i k := by
  unfold rowIds at h
  rcases List.mem_map.1 h with ⟨k, _, rfl⟩
  exact ⟨k, rfl⟩

theorem mem_idsFrom {cm : ColumnMapping} {s : String} :
    ∀ {rows : List (List String)} {i : Nat}, s ∈ idsFrom cm i rows →
      ∃ j k, i ≤ j ∧ s = mkId j k := by
  intro rows
  induction rows with
  | nil => intro i h; cases h
  | cons row rest ih =>
    intro i h
    rw [idsFrom] at h
    rcases List.mem_append.1 h with h | h
    · rcases mem_rowIds h with ⟨k, rfl⟩
      exact ⟨i, k, Nat.le_refl i, rfl⟩
    · rcases ih h with ⟨j, k, hj, rfl⟩
      exact ⟨j, k, by omega, rfl⟩

theorem rowIds_nodup (cm : ColumnMapping) (i : Nat) (row : List String) :
    (rowIds cm i row).Nodup := by
  unfold rowIds
  refine List.Nodup.map_on ?_ (List.Nodup.filter _ (by decide))
  intro x _ y _ hxy
  exact (mkId_inj hxy).2

theorem idsFrom_nodup (cm : ColumnMapping) :
    ∀ (rows : List (List String)) (i : Nat), (idsFrom cm i rows).Nodup
  | [], _ => List.nodup_nil
  | row :: rest, i => by
    rw [idsFrom]
    refine (rowIds_nodup cm i row).append (idsFrom_nodup cm rest (i + 1)) ?_
    intro s hs hs'
    rcases mem_rowIds hs with ⟨k, rfl⟩
    rcases mem_idsFrom hs' with ⟨j, l, hj, he⟩
    have := (mkId_inj he).1
    omega

/-- Claim C7: a `detailedTableData` record is emitted for subject slot
`k` of source row `i` if and only if that slot's trimmed name cell is
non-empty, each emitted record's id is the string `"i-k"`, and the ids
of all emitted records are distinct. -/
theorem detailedTable_ids (rows : List (List String)) (cm : ColumnMapping)
    (r : Result) (h : processData rows cm = .ok r) :
    r.detailedTableData.map (fun s => s.id) = idsFrom cm 0 rows ∧
    (r.detailedTableData.map (fun s => s.id)).Nodup := by
  rw [processData_eq] at h
  cases hf : finalState rows cm with
  | error e => rw [hf] at h; cases h
  | ok st =>
    rw [hf] at h
    dsimp only at h
    obtain rfl := Except.ok.inj h
    have hids : st.processedRows.map (fun s => s.id) = idsFrom cm 0 rows := by
      have := loop_fold
        (f := fun u => u.processedRows.map (fun s => s.id))
        (g := fun i row a => a ++ rowIds cm i row)
        (fun i row s s' hr => processRow_ids hr) rows 0 initState st hf
      dsimp only at this
      rw [this, foldIdx_ids]
      rfl
    exact ⟨hids, hids ▸ idsFrom_nodup cm rows 0⟩

/-- Witness for C7 at a concrete input: two rows, with empty name cells
in slot 2 of row 0 and slots 1 and 3 of row 1, emit exactly the ids
"0-1", "0-3", "1-2", which are distinct. -/
theorem detailedTable_ids_witness :
    (resultOr (processData rowsSlots cmSlots)).detailedTableData.map (fun s => s.id) =
      idsFrom cmSlots 0 rowsSlots ∧
    ((resultOr (processData rowsSlots cmSlots)).detailedTableData.map
      (fun s => s.id)).Nodup :=
  detailedTable_ids rowsSlots cmSlots (resultOr (processData rowsSlots cmSlots)) rfl

/-! ### Claim C4: cross-tab dictionary lemmas -/

theorem lookup2_bump2_self (a b : String) :
    ∀ m : List (String × List (String × Nat)),
      lookup2 (bump2 m a b) a b = lookup2 m a b + 1
  | [] => by simp [bump2, lookup2, lookupD]
  | (x, inner) :: rest => by
    by_cases hx : x = a
    · rw [bump2, if_pos hx, lookup2, if_pos hx, lookup2, if_pos hx, lookupD_bump_self]
    · rw [bump2, if_neg hx, lookup2, if_neg hx, lookup2, if_neg hx]
      exact lookup2_bump2_self a b rest

theorem lookup2_bump2_ne {a b a' b' : String} (h : ¬ (a' = a ∧ b' = b)) :
    ∀ m : List (String × List (String × Nat)),
      lookup2 (bump2 m a b) a' b' = lookup2 m a' b'
  | [] => by
    rw [bump2, lookup2, lookup2]
    by_cases ha : a = a'
    · have hb : b' ≠ b := by
        intro hb
        exact h ⟨ha.symm, hb⟩
      rw [if_pos ha, lookupD]
      have hbb : ¬ b = b' := fun h' => hb h'.symm
      rw [if_neg hbb]
      rfl
    · rw [if_neg ha]
      rfl
  | (x, inner) :: rest => by
    by_cases hx : x = a
    · rw [bump2, if_pos hx, lookup2, lookup2]
      by_cases hx' : x = a'
      · have hb : b' ≠ b := by
          intro hb
          exact h ⟨(hx'.symm.trans hx), hb⟩
        rw [if_pos hx', if_pos hx', lookupD_bump_ne hb]
      · rw [if_neg hx', if_neg hx']
    · rw [bump2, if_neg hx, lookup2, lookup2]
      by_cases hx' : x = a'
      · rw [if_pos hx', if_pos hx']
      · rw [if_neg hx', if_neg hx']
        exact lookup2_bump2_ne h rest

theorem lookup2_eq_of_mem {a b : String} {inner : List (String × Nat)} :
    ∀ {m : List (String × List (String × Nat))}, (m.map Prod.fst).Nodup →
      (a, inner) ∈ m → lookup2 m a b = lookupD inner b 0 := by
  intro m
  induction m with
  | nil => intro _ h; cases h
  | cons p rest ih =>
    intro hnd hm
    obtain ⟨x, xinner⟩ := p
    rw [List.map_cons, List.nodup_cons] at hnd
    rcases List.mem_cons.1 hm with h | h
    · cases h
      rw [lookup2, if_pos rfl]
    · have hx : x ≠ a := by
        intro h'
        subst h'
        exact hnd.1 (List.mem_map.2 ⟨(x, inner), h, rfl⟩)
      rw [lookup2, if_neg hx]
      exact ih hnd.2 h

theorem bump2_map_fst (a b : String) :
    ∀ m : List (String × List (String × Nat)),
      (bump2 m a b).map Prod.fst =
        if a ∈ m.map Prod.fst then m.map Prod.fst else m.map Prod.fst ++ [a]
  | [] => by simp [bump2]
  | (x, inner) :: rest => by
    by_cases hx : x = a
    · subst hx
      simp [bump2]
    · have hx' : ¬ a = x := fun h => hx h.symm
      rw [bump2, if_neg hx, List.map_cons, List.map_cons, bump2_map_fst a b rest]
      by_cases hk : a ∈ rest.map Prod.fst
      · rw [if_pos hk, if_pos (by simp [List.mem_cons, hk])]
      · rw [if_neg hk, if_neg (by simp [List.mem_cons, hx', hk])]
        rfl

theorem bump2_nodup {a b : String} {m : List (String × List (String × Nat))}
    (h1 : (m.map Prod.fst).Nodup)
    (h2 : ∀ p ∈ m, (p.2.map Prod.fst).Nodup) :
    ((bump2 m a b).map Prod.fst).Nodup ∧
      ∀ p ∈ bump2 m a b, (p.2.map Prod.fst).Nodup := by
  constructor
  · rw [bump2_map_fst]
    split
    · exact h1
    · rename_i hk
      simp only [List.nodup_append, List.nodup_cons, List.nodup_nil]
      refine ⟨h1, by simp, ?_⟩
      intro x hx hxa
      simp only [List.mem_singleton] at hxa
      exact hk (hxa ▸ hx)
  · clear h1
    induction m with
    | nil =>
      intro p hp
      rw [bump2] at hp
      rcases List.mem_singleton.1 hp with rfl
      simp
    | cons q rest ih =>
      intro p hp
      obtain ⟨x, xinner⟩ := q
      rw [bump2] at hp
      split at hp
      · rcases List.mem_cons.1 hp with rfl | hp'
        · exact bump_nodup (h2 (x, xinner) (List.mem_cons_self _ _))
        · exact h2 p (List.mem_cons_of_mem _ hp')
      · rcases List.mem_cons.1 hp with rfl | hp'
        · exact h2 (x, xinner) (List.mem_cons_self _ _)
        · exact ih (fun q hq => h2 q (List.mem_cons_of_mem _ hq)) p hp'

theorem mem_flattenMun {e : SchoolMunRow} :
    ∀ {m : List (String × List (String × Nat))}, e ∈ flattenMun m →
      ∃ inner, (e.munisipiu, inner) ∈ m ∧ (e.naranEskola, e.total) ∈ inner := by
  intro m
  induction m with
  | nil => intro h; cases h
  | cons p rest ih =>
    intro h
    obtain ⟨x, inner⟩ := p
    rw [flattenMun] at h
    rcases List.mem_append.1 h with h | h
    · rcases List.mem_map.1 h with ⟨q, hq, rfl⟩
      exact ⟨inner, List.mem_cons_self _ _, hq⟩
    · rcases ih h with ⟨inner', h1, h2⟩
      exact ⟨inner', List.mem_cons_of_mem _ h1, h2⟩

theorem flattenMun_totals (x : String) (inner : List (String × Nat)) :
    ((inner.map (fun q => (⟨x, q.1, q.2⟩ : SchoolMunRow))).map
      (fun e => e.total)).sum = sumSnd inner := by
  rw [List.map_map]
  rfl

theorem sumFlat_bump2 (a b : String) :
    ∀ m : List (String × List (String × Nat)),
      ((flattenMun (bump2 m a b)).map (fun e => e.total)).sum =
        ((flattenMun m).map (fun e => e.total)).sum + 1
  | [] => by
    rw [bump2]
    show ((flattenMun [(a, [(b, 1)])]).map (fun e => e.total)).sum = _
    rfl
  | (x, inner) :: rest => by
    by_cases hx : x = a
    · rw [bump2, if_pos hx, flattenMun, flattenMun, List.map_append, List.map_append,
        List.sum_append, List.sum_append, flattenMun_totals, flattenMun_totals,
        sumSnd_bump]
      omega
    · rw [bump2, if_neg hx, flattenMun, flattenMun, List.map_append, List.map_append,
        List.sum_append, List.sum_append, sumFlat_bump2 a b rest]
      omega

theorem filter_length_eq_sum {α : Type} (C : α → Prop) [DecidablePred C] :
    ∀ l : List α, (l.filter (fun x => decide (C x))).length =
      (l.map (fun x => if C x then 1 else 0)).sum
  | [] => rfl
  | x :: xs => by
    rw [List.map_cons, List.sum_cons, List.filter_cons]
    by_cases h : C x
    · simp [h, filter_length_eq_sum C xs]
      omega
    · simp [h, filter_length_eq_sum C xs]

theorem foldIdx_count (f : List String → Nat) :
    ∀ (rows : List (List String)) (i a : Nat),
      foldIdx (fun _ row a => a + f row) i a rows = a + (rows.map f).sum
  | [], _, _ => by simp [foldIdx]
  | row :: rest, i, a => by
    rw [foldIdx, foldIdx_count f rest (i + 1), List.map_cons, List.sum_cons]
    omega

theorem sharedStep_cross_ite (sh : Shared) (st : ProcState) :
    (sharedStep sh st).schoolMunicipalityCounts =
      if sh.munisipiu ≠ "N/A" ∧ sh.naranEskola ≠ "N/A"
      then bump2 st.schoolMunicipalityCounts sh.munisipiu sh.naranEskola
      else st.schoolMunicipalityCounts := by
  by_cases hd : sh.munisipiu ≠ "N/A" ∧ sh.naranEskola ≠ "N/A"
  · rw [if_pos hd]
    unfold sharedStep
    simp only [if_pos hd]
    split_ifs <;> rfl
  · rw [if_neg hd]
    unfold sharedStep
    simp only [if_neg hd]
    split_ifs <;> rfl

theorem processRow_lookup2 {cm : ColumnMapping} {i : Nat} {row : List String}
    {st st' : ProcState} {m s : String}
    (h : processRow cm i row st = .ok st') (hm : m ≠ "N/A") (hs : s ≠ "N/A") :
    lookup2 st'.schoolMunicipalityCounts m s =
      lookup2 st.schoolMunicipalityCounts m s +
        (if (extractShared cm row).munisipiu = m ∧ (extractShared cm row).naranEskola = s
         then 1 else 0) := by
  rw [view_cross (processRow_ok_view h), sharedStep_cross_ite]
  by_cases hpair : (extractShared cm row).munisipiu = m ∧
      (extractShared cm row).naranEskola = s
  · rw [if_pos hpair]
    have hguard : (extractShared cm row).munisipiu ≠ "N/A" ∧
        (extractShared cm row).naranEskola ≠ "N/A" := by
      rw [hpair.1, hpair.2]
      exact ⟨hm, hs⟩
    rw [if_pos hguard, hpair.1, hpair.2, lookup2_bump2_self]
  · rw [if_neg hpair]
    split_ifs with hguard
    · rw [lookup2_bump2_ne (fun hc => hpair ⟨hc.1.symm, hc.2.symm⟩)]
      omega
    · omega

theorem processRow_sumFlat {cm : ColumnMapping} {i : Nat} {row : List String}
    {st st' : ProcState} (h : processRow cm i row st = .ok st') :
    ((flattenMun st'.schoolMunicipalityCounts).map (fun e => e.total)).sum =
      ((flattenMun st.schoolMunicipalityCounts).map (fun e => e.total)).sum +
        (if (extractShared cm row).munisipiu ≠ "N/A" ∧
            (extractShared cm row).naranEskola ≠ "N/A" then 1 else 0) := by
  rw [view_cross (processRow_ok_view h), sharedStep_cross_ite]
  split_ifs with hguard
  · rw [sumFlat_bump2]
  · rfl

theorem final_cross_props {rows : List (List String)} {cm : ColumnMapping}
    {st : ProcState} (hf : finalState rows cm = .ok st) :
    (st.schoolMunicipalityCounts.map Prod.fst).Nodup ∧
      (∀ p ∈ st.schoolMunicipalityCounts, (p.2.map Prod.fst).Nodup) ∧
      (∀ p ∈ st.schoolMunicipalityCounts, p.1 ≠ "N/A" ∧ ∀ q ∈ p.2, q.1 ≠ "N/A") := by
  refine loop_pres
    (P := fun u =>
      (u.schoolMunicipalityCounts.map Prod.fst).Nodup ∧
      (∀ p ∈ u.schoolMunicipalityCounts, (p.2.map Prod.fst).Nodup) ∧
      (∀ p ∈ u.schoolMunicipalityCounts, p.1 ≠ "N/A" ∧ ∀ q ∈ p.2, q.1 ≠ "N/A"))
    ?_ rows 0 initState st hf
    ⟨List.nodup_nil, by simp [initState], by simp [initState]⟩
  intro i row s s' hr hp
  have hc := view_cross (processRow_ok_view hr)
  rw [sharedStep_cross_ite] at hc
  refine ⟨?_, ?_, ?_⟩ <;> rw [hc]
  · split_ifs with hguard
    · exact (bump2_nodup hp.1 hp.2.1).1
    · exact hp.1
  · split_ifs with hguard
    · exact (bump2_nodup hp.1 hp.2.1).2
    · exact hp.2.1
  · split_ifs with hguard
    · exact @bump2_inv (fun k => k ≠ "N/A") (fun k => k ≠ "N/A") _ _
        hguard.1 hguard.2 _ hp.2.2
    · exact hp.2.2

/-- Claim C4 (counterexample): a whitespace-only municipality cell is
blank — missing in the spec sense — yet the row is counted by the cross
tab (the guard of line 120 tests only `!= 'N/A'`), so the table totals
sum to 1 while the number of rows with both values non-missing is 0. -/
theorem crossTab_counts_blank :
    ((resultOr (processData [["  ", "X"]] cmCross)).schoolMunicipalityTableData.map
      (fun e => e.total)).sum = 1 ∧
    bothNonMissing cmCross [["  ", "X"]] = 0 :=
  ⟨by decide, by decide⟩

/-- Claim C4 (amended): each `schoolMunicipalityTableData` entry counts
submissions (input rows), not subjects, for its (municipality, school
name) pair; the entries are sorted by municipality then school name;
and the totals sum to the number of input rows whose municipality and
school name both differ from the `'N/A'` sentinel (blank values
included — a blank cell still passes the guard of line 120). -/
theorem schoolMunicipalityTable_props (rows : List (List String)) (cm : ColumnMapping)
    (r : Result) (h : processData rows cm = .ok r) :
    r.schoolMunicipalityTableData.Pairwise (fun a b => tableLeB a b = true) ∧
    (∀ e ∈ r.schoolMunicipalityTableData,
      e.munisipiu ≠ "N/A" ∧ e.naranEskola ≠ "N/A" ∧
      e.total = pairCount cm e.munisipiu e.naranEskola rows) ∧
    (r.schoolMunicipalityTableData.map (fun e => e.total)).sum =
      crossEligible cm rows := by
  rw [processData_eq] at h
  cases hf : finalState rows cm with
  | error e => rw [hf] at h; cases h
  | ok st =>
    rw [hf] at h
    dsimp only at h
    obtain rfl := Except.ok.inj h
    have hprops := final_cross_props hf
    have htable : (assemble st).schoolMunicipalityTableData =
        sortLe tableLeB (flattenMun st.schoolMunicipalityCounts) := rfl
    refine ⟨?_, ?_, ?_⟩
    · rw [htable]
      exact @sortLe_sorted _ tableLeB (fun a b c h1 h2 => tableLeB_trans h1 h2)
        tableLeB_total _
    · intro e he
      rw [htable] at he
      rcases mem_flattenMun (mem_sortLe.1 he) with ⟨inner, hmem, hq⟩
      have hkeys := hprops.2.2 (e.munisipiu, inner) hmem
      have hmun : e.munisipiu ≠ "N/A" := hkeys.1
      have hesk : e.naranEskola ≠ "N/A" := hkeys.2 (e.naranEskola, e.total) hq
      refine ⟨hmun, hesk, ?_⟩
      have h1 : lookup2 st.schoolMunicipalityCounts e.munisipiu e.naranEskola = e.total := by
        rw [lookup2_eq_of_mem hprops.1 hmem]
        exact lookupD_eq_of_mem (hprops.2.1 (e.munisipiu, inner) hmem) hq
      have h2 := loop_fold
        (f := fun u => lookup2 u.schoolMunicipalityCounts e.munisipiu e.naranEskola)
        (g := fun _ row a => a +
          (if (extractShared cm row).munisipiu = e.munisipiu ∧
              (extractShared cm row).naranEskola = e.naranEskola then 1 else 0))
        (fun i row t t' hr => processRow_lookup2 hr hmun hesk) rows 0 initState st hf
      dsimp only at h2
      rw [show lookup2 initState.schoolMunicipalityCounts e.munisipiu e.naranEskola = 0
        from rfl] at h2
      rw [foldIdx_count (fun row =>
        if (extractShared cm row).munisipiu = e.munisipiu ∧
            (extractShared cm row).naranEskola = e.naranEskola then 1 else 0) rows 0 0]
        at h2
      rw [pairCount, filter_length_eq_sum]
      rw [h2] at h1
      omega
    · have h2 := loop_fold
        (f := fun u => ((flattenMun u.schoolMunicipalityCounts).map
          (fun e => e.total)).sum)
        (g := fun _ row a => a +
          (if (extractShared cm row).munisipiu ≠ "N/A" ∧
              (extractShared cm row).naranEskola ≠ "N/A" then 1 else 0))
        (fun i row t t' hr => processRow_sumFlat hr) rows 0 initState st hf
      dsimp only at h2
      rw [show ((flattenMun initState.schoolMunicipalityCounts).map
        (fun e => e.total)).sum = 0 from rfl] at h2
      rw [foldIdx_count (fun row =>
        if (extractShared cm row).munisipiu ≠ "N/A" ∧
            (extractShared cm row).naranEskola ≠ "N/A" then 1 else 0) rows 0 0] at h2
      have hperm := ((sortLe_perm tableLeB
        (flattenMun st.schoolMunicipalityCounts)).map (fun e => e.total)).sum_eq
      rw [htable, hperm, h2, crossEligible, filter_length_eq_sum]
      omega

/-- Witness for the amended C4 at a concrete input: the entry
(Dili, S1) counts its two submissions, and the totals sum to the number
of rows passing the line-120 guard. -/
theorem schoolMunicipalityTable_props_witness :
    ((⟨"Dili", "S1", 2⟩ : SchoolMunRow).total =
      pairCount cmCross "Dili" "S1" rowsCross) ∧
    ((resultOr (processData rowsCross cmCross)).schoolMunicipalityTableData.map
      (fun e => e.total)).sum = crossEligible cmCross rowsCross := by
  constructor
  · exact ((schoolMunicipalityTable_props rowsCross cmCross
      (resultOr (processData rowsCross cmCross)) rfl).2.1
      ⟨"Dili", "S1", 2⟩ (by decide)).2.2
  · exact (schoolMunicipalityTable_props rowsCross cmCross
      (resultOr (processData rowsCross cmCross)) rfl).2.2

/-! ### Claim C9: count tables built from value streams -/

theorem bump_map_fst_addSet (k : String) (m : List (String × Nat)) :
    (bump m k).map Prod.fst = addSet (m.map Prod.fst) k := by
  rw [bump_map_fst, addSet]

theorem addSet_nodup {s : List String} {k : String} (h : s.Nodup) :
    (addSet s k).Nodup := by
  rw [addSet]
  split
  · exact h
  · rename_i hk
    simp only [List.nodup_append, List.nodup_cons, List.nodup_nil]
    refine ⟨h, by simp, ?_⟩
    intro a ha hak
    simp only [List.mem_singleton] at hak
    exact hk (hak ▸ ha)

theorem foldl_addSet_nodup :
    ∀ (l : List String) {a : List String}, a.Nodup → (l.foldl addSet a).Nodup
  | [], _, h => h
  | x :: xs, a, h => foldl_addSet_nodup xs (addSet_nodup h)

theorem buildCounts_keys :
    ∀ (l : List String) (a : List (String × Nat)),
      (l.foldl bump a).map Prod.fst = l.foldl addSet (a.map Prod.fst)
  | [], _ => rfl
  | x :: xs, a => by
    rw [List.foldl_cons, List.foldl_cons, buildCounts_keys xs (bump a x),
      bump_map_fst_addSet]

theorem countOcc_cons (x k : String) (l : List String) :
    countOcc (x :: l) k = (if x = k then 1 else 0) + countOcc l k := by
  unfold countOcc
  rw [List.filter_cons]
  by_cases h : x = k
  · simp [h]
    omega
  · simp [h]

theorem buildCounts_lookup :
    ∀ (l : List String) (a : List (String × Nat)) (k : String),
      lookupD (l.foldl bump a) k 0 = lookupD a k 0 + countOcc l k
  | [], _, _ => by simp [countOcc]
  | x :: xs, a, k => by
    rw [List.foldl_cons, buildCounts_lookup xs (bump a x) k, countOcc_cons]
    by_cases h : x = k
    · subst h
      rw [lookupD_bump_self, if_pos rfl]
      omega
    · rw [lookupD_bump_ne (fun h' => h h'.symm), if_neg h]
      omega

theorem eq_keys_lookup :
    ∀ {m : List (String × Nat)}, (m.map Prod.fst).Nodup →
      (m.map Prod.fst).map (fun k => (k, lookupD m k 0)) = m := by
  intro m
  induction m with
  | nil => intro _; rfl
  | cons p rest ih =>
    intro hnd
    obtain ⟨a, n⟩ := p
    rw [List.map_cons, List.nodup_cons] at hnd
    simp only [List.map_cons, lookupD, if_pos rfl]
    congr 1
    have step : ∀ l ∈ rest.map Prod.fst,
        (fun k => (k, if a = k then n else lookupD rest k 0)) l =
          (fun k => (k, lookupD rest k 0)) l := by
      intro l hl
      have hne : ¬ a = l := by
        intro h
        subst h
        exact hnd.1 hl
      simp [hne]
    rw [List.map_congr_left step, ih hnd.2]

theorem buildCounts_eq_countTable (l : List String) :
    l.foldl bump [] = countTable l := by
  have hnd : ((l.foldl bump []).map Prod.fst).Nodup := by
    rw [buildCounts_keys]
    exact foldl_addSet_nodup l List.nodup_nil
  have hkeys : (l.foldl bump []).map Prod.fst = firstEnc l := buildCounts_keys l []
  have hstep : ∀ k ∈ firstEnc l,
      (fun k => (k, lookupD (l.foldl bump []) k 0)) k =
        (fun k => (k, countOcc l k)) k := by
    intro k _
    have := buildCounts_lookup l [] k
    simp only [lookupD] at this
    simp [this]
  calc l.foldl bump []
      = ((l.foldl bump []).map Prod.fst).map (fun k => (k, lookupD (l.foldl bump []) k 0)) :=
        (eq_keys_lookup hnd).symm
    _ = (firstEnc l).map (fun k => (k, lookupD (l.foldl bump []) k 0)) := by rw [hkeys]
    _ = (firstEnc l).map (fun k => (k, countOcc l k)) := List.map_congr_left hstep
    _ = countTable l := rfl

theorem foldIdx_buildStream (e : List String → String) :
    ∀ (rows : List (List String)) (i : Nat) (a : List (String × Nat)),
      foldIdx (fun _ row a => if e row ≠ "" ∧ e row ≠ "N/A" then bump a (e row) else a)
          i a rows =
        ((rows.map e).filter (fun v => decide (v ≠ "" ∧ v ≠ "N/A"))).foldl bump a
  | [], _, _ => rfl
  | row :: rest, i, a => by
    rw [foldIdx, foldIdx_buildStream e rest (i + 1) _, List.map_cons, List.filter_cons]
    by_cases h : e row ≠ "" ∧ e row ≠ "N/A"
    · simp [h]
    · simp [h]

theorem sharedStep_munCounts_ite (sh : Shared) (st : ProcState) :
    (sharedStep sh st).municipalityChartCounts =
      if sh.munisipiu ≠ "" ∧ sh.munisipiu ≠ "N/A"
      then bump st.municipalityChartCounts sh.munisipiu
      else st.municipalityChartCounts := by
  by_cases hd : sh.munisipiu ≠ "" ∧ sh.munisipiu ≠ "N/A"
  · rw [if_pos hd]
    unfold sharedStep
    simp only [if_pos hd]
    split_ifs <;> rfl
  · rw [if_neg hd]
    unfold sharedStep
    simp only [if_neg hd]
    split_ifs <;> rfl

theorem sharedStep_dixCounts_ite (sh : Shared) (st : ProcState) :
    (sharedStep sh st).disciplineChartCounts =
      if sh.dixiplina ≠ "" ∧ sh.dixiplina ≠ "N/A"
      then bump st.disciplineChartCounts sh.dixiplina
      else st.disciplineChartCounts := by
  by_cases hd : sh.dixiplina ≠ "" ∧ sh.dixiplina ≠ "N/A"
  · rw [if_pos hd]
    unfold sharedStep
    simp only [if_pos hd]
    split_ifs <;> rfl
  · rw [if_neg hd]
    unfold sharedStep
    simp only [if_neg hd]
    split_ifs <;> rfl

theorem processRow_munCounts {cm : ColumnMapping} {i : Nat} {row : List String}
    {st st' : ProcState} (h : processRow cm i row st = .ok st') :
    st'.municipalityChartCounts =
      if (extractShared cm row).munisipiu ≠ "" ∧ (extractShared cm row).munisipiu ≠ "N/A"
      then bump st.municipalityChartCounts (extractShared cm row).munisipiu
      else st.municipalityChartCounts := by
  rw [view_munCounts (processRow_ok_view h), sharedStep_munCounts_ite]

theorem processRow_dixCounts {cm : ColumnMapping} {i : Nat} {row : List String}
    {st st' : ProcState} (h : processRow cm i row st = .ok st') :
    st'.disciplineChartCounts =
      if (extractShared cm row).dixiplina ≠ "" ∧ (extractShared cm row).dixiplina ≠ "N/A"
      then bump st.disciplineChartCounts (extractShared cm row).dixiplina
      else st.disciplineChartCounts := by
  rw [view_dixCounts (processRow_ok_view h), sharedStep_dixCounts_ite]

theorem final_munCounts {rows : List (List String)} {cm : ColumnMapping}
    {st : ProcState} (hf : finalState rows cm = .ok st) :
    st.municipalityChartCounts = countTable (munStream cm rows) := by
  have h := loop_fold (f := fun u => u.municipalityChartCounts)
    (g := fun _ row a =>
      if (extractShared cm row).munisipiu ≠ "" ∧ (extractShared cm row).munisipiu ≠ "N/A"
      then bump a (extractShared cm row).munisipiu else a)
    (fun i row t t' hr => processRow_munCounts hr) rows 0 initState st hf
  dsimp only at h
  rw [h, show initState.municipalityChartCounts = ([] : List (String × Nat)) from rfl,
    foldIdx_buildStream (fun row => (extractShared cm row).munisipiu) rows 0 []]
  exact buildCounts_eq_countTable _

theorem final_dixCounts {rows : List (List String)} {cm : ColumnMapping}
    {st : ProcState} (hf : finalState rows cm = .ok st) :
    st.disciplineChartCounts = countTable (dixStream cm rows) := by
  have h := loop_fold (f := fun u => u.disciplineChartCounts)
    (g := fun _ row a =>
      if (extractShared cm row).dixiplina ≠ "" ∧ (extractShared cm row).dixiplina ≠ "N/A"
      then bump a (extractShared cm row).dixiplina else a)
    (fun i row t t' hr => processRow_dixCounts hr) rows 0 initState st hf
  dsimp only at h
  rw [h, show initState.disciplineChartCounts = ([] : List (String × Nat)) from rfl,
    foldIdx_buildStream (fun row => (extractShared cm row).dixiplina) rows 0 []]
  exact buildCounts_eq_countTable _

theorem mem_countTable {q : String × Nat} {l : List String} (h : q ∈ countTable l) :
    q.2 = countOcc l q.1 := by
  rcases List.mem_map.1 h with ⟨k, _, rfl⟩
  rfl

theorem topTen_spec (M : List (String × Nat)) :
    ((sortLe descCountB M).take 10).length ≤ 10 ∧
    (((sortLe descCountB M).take 10).map Prod.snd).Pairwise (fun a b => b ≤ a) ∧
    (∀ p ∈ M, p.1 ∉ ((sortLe descCountB M).take 10).map Prod.fst →
      ∀ c ∈ ((sortLe descCountB M).take 10).map Prod.snd, p.2 ≤ c) ∧
    (∀ q ∈ (sortLe descCountB M).take 10, q ∈ M) ∧
    (∀ n : Nat, List.Sublist
      (((sortLe descCountB M).take 10).filter (fun q => decide (q.2 = n)))
      (M.filter (fun q => decide (q.2 = n)))) := by
  have hsorted : (sortLe descCountB M).Pairwise (fun a b => descCountB a b = true) :=
    @sortLe_sorted _ descCountB (fun a b c h1 h2 => descCountB_trans h1 h2)
      descCountB_total M
  have htake : List.Sublist ((sortLe descCountB M).take 10) (sortLe descCountB M) :=
    List.take_sublist 10 _
  refine ⟨?_, ?_, ?_, ?_, ?_⟩
  · simp [List.length_take]
  · refine List.Pairwise.map _ ?_ (hsorted.sublist htake)
    intro a b hab
    have : (b.2 ≤ a.2) := of_decide_eq_true hab
    exact this
  · intro p hp hnotin c hc
    have hsplit := List.take_append_drop 10 (sortLe descCountB M)
    have hpw : ((sortLe descCountB M).take 10 ++ (sortLe descCountB M).drop 10).Pairwise
        (fun a b => descCountB a b = true) := by
      rw [hsplit]
      exact hsorted
    have hrel := (List.pairwise_append.1 hpw).2.2
    have hp' : p ∈ (sortLe descCountB M).take 10 ++ (sortLe descCountB M).drop 10 := by
      rw [hsplit]
      exact mem_sortLe.2 hp
    have hpdrop : p ∈ (sortLe descCountB M).drop 10 := by
      rcases List.mem_append.1 hp' with h | h
      · exact absurd (List.mem_map.2 ⟨p, h, rfl⟩) hnotin
      · exact h
    rcases List.mem_map.1 hc with ⟨q, hq, rfl⟩
    have := hrel q hq p hpdrop
    exact of_decide_eq_true this
  · intro q hq
    exact mem_sortLe.1 (List.take_subset 10 _ hq)
  · intro n
    have h1 := htake.filter (fun q => decide (q.2 = n))
    rw [filter_sortLe ?_] at h1
    · exact h1
    · intro a b ha hb
      have ha' : a.2 = n := of_decide_eq_true ha
      have hb' : b.2 = n := of_decide_eq_true hb
      exact decide_eq_true (by omega)

/-- Claim C9: the municipality bar chart (`municipalityPieChartData`)
and `disciplineChartData` each hold at most 10 entries, in descending
count order; every omitted value's count is at most every kept value's
count; each kept entry's datum is the occurrence count of its label in
the input; and entries with equal counts keep their first-encounter
order in the input (a subsequence of the insertion-ordered count
table). -/
theorem topTenCharts (rows : List (List String)) (cm : ColumnMapping)
    (r : Result) (h : processData rows cm = .ok r) :
    (r.municipalityPieChartData.labels.length ≤ 10 ∧
     r.municipalityPieChartData.data.Pairwise (fun a b => b ≤ a) ∧
     (∀ p ∈ countTable (munStream cm rows), p.1 ∉ r.municipalityPieChartData.labels →
       ∀ c ∈ r.municipalityPieChartData.data, p.2 ≤ c) ∧
     (∀ q ∈ r.municipalityPieChartData.labels.zip r.municipalityPieChartData.data,
       q.2 = countOcc (munStream cm rows) q.1) ∧
     (∀ n : Nat, List.Sublist
       ((r.municipalityPieChartData.labels.zip
         r.municipalityPieChartData.data).filter (fun q => decide (q.2 = n)))
       ((countTable (munStream cm rows)).filter (fun q => decide (q.2 = n))))) ∧
    (r.disciplineChartData.labels.length ≤ 10 ∧
     r.disciplineChartData.data.Pairwise (fun a b => b ≤ a) ∧
     (∀ p ∈ countTable (dixStream cm rows), p.1 ∉ r.disciplineChartData.labels →
       ∀ c ∈ r.disciplineChartData.data, p.2 ≤ c) ∧
     (∀ q ∈ r.disciplineChartData.labels.zip r.disciplineChartData.data,
       q.2 = countOcc (dixStream cm rows) q.1) ∧
     (∀ n : Nat, List.Sublist
       ((r.disciplineChartData.labels.zip
         r.disciplineChartData.data).filter (fun q => decide (q.2 = n)))
       ((countTable (dixStream cm rows)).filter (fun q => decide (q.2 = n))))) := by
  rw [processData_eq] at h
  cases hf : finalState rows cm with
  | error e => rw [hf] at h; cases h
  | ok st =>
    rw [hf] at h
    dsimp only at h
    obtain rfl := Except.ok.inj h
    have hMmun := final_munCounts hf
    have hMdix := final_dixCounts hf
    have zipMun : (((sortLe descCountB st.municipalityChartCounts).take 10).map
          Prod.fst).zip
        (((sortLe descCountB st.municipalityChartCounts).take 10).map Prod.snd) =
        (sortLe descCountB st.municipalityChartCounts).take 10 := by
      rw [List.zip_map']
      simp
    have zipDix : (((sortLe descCountB st.disciplineChartCounts).take 10).map
          Prod.fst).zip
        (((sortLe descCountB st.disciplineChartCounts).take 10).map Prod.snd) =
        (sortLe descCountB st.disciplineChartCounts).take 10 := by
      rw [List.zip_map']
      simp
    have labMun : (assemble st).municipalityPieChartData.labels =
        ((sortLe descCountB st.municipalityChartCounts).take 10).map Prod.fst := rfl
    have datMun : (assemble st).municipalityPieChartData.data =
        ((sortLe descCountB st.municipalityChartCounts).take 10).map Prod.snd := rfl
    have labDix : (assemble st).disciplineChartData.labels =
        ((sortLe descCountB st.disciplineChartCounts).take 10).map Prod.fst := rfl
    have datDix : (assemble st).disciplineChartData.data =
        ((sortLe descCountB st.disciplineChartCounts).take 10).map Prod.snd := rfl
    constructor
    · rw [labMun, datMun, zipMun, hMmun]
      obtain ⟨s1, s2, s3, s4, s5⟩ := topTen_spec (countTable (munStream cm rows))
      refine ⟨by simpa using s1, s2, s3, ?_, s5⟩
      intro q hq
      exact mem_countTable (s4 q hq)
    · rw [labDix, datDix, zipDix, hMdix]
      obtain ⟨s1, s2, s3, s4, s5⟩ := topTen_spec (countTable (dixStream cm rows))
      refine ⟨by simpa using s1, s2, s3, ?_, s5⟩
      intro q hq
      exact mem_countTable (s4 q hq)

/-- Witness for C9 at a concrete input (municipalities b, a, a, c): the
municipality chart has at most 10 entries and its data is descending. -/
theorem topTenCharts_witness :
    (resultOr (processData rowsTop cmCross)).municipalityPieChartData.labels.length ≤ 10 ∧
    (resultOr (processData rowsTop cmCross)).municipalityPieChartData.data.Pairwise
      (fun a b => b ≤ a) :=
  ⟨(topTenCharts rowsTop cmCross (resultOr (processData rowsTop cmCross)) rfl).1.1,
   (topTenCharts rowsTop cmCross (resultOr (processData rowsTop cmCross)) rfl).1.2.1⟩

theorem dedupeAux_length (t : List String) : ∀ seen, (dedupeAux t seen).length = t.length := by
  induction t with
  | nil => intro seen; rfl
  | cons h t ih => intro seen; simp [dedupeAux, ih]

theorem dedupeAux_getD (t : List String) : ∀ (seen : List (String × Nat)) (i : Nat),
    i < t.length →
    (dedupeAux t seen).getD i "" =
      (if lookupD seen (t.getD i "") 0 + countOcc (t.take i) (t.getD i "") = 0
       then t.getD i ""
       else t.getD i "" ++ "_" ++
         toString (lookupD seen (t.getD i "") 0 + countOcc (t.take i) (t.getD i ""))) := by
  induction t with
  | nil => intro seen i hi; exact absurd hi (Nat.not_lt_zero i)
  | cons h t ih =>
    intro seen i hi
    rw [show dedupeAux (h :: t) seen =
        (if lookupD seen h 0 = 0 then h
         else h ++ "_" ++ toString (lookupD seen h 0)) :: dedupeAux t (bump seen h) from rfl]
    cases i with
    | zero =>
      simp [countOcc]
    | succ j =>
      have hj : j < t.length := Nat.lt_of_succ_lt_succ hi
      rw [List.getD_cons_succ, ih (bump seen h) j hj]
      simp only [List.getD_cons_succ, List.take_succ_cons, countOcc_cons]
      have hv : lookupD (bump seen h) (t.getD j "") 0 + countOcc (t.take j) (t.getD j "") =
          lookupD seen (t.getD j "") 0 +
            ((if h = t.getD j "" then 1 else 0) + countOcc (t.take j) (t.getD j "")) := by
        by_cases hk : t.getD j "" = h
        · rw [hk, lookupD_bump_self, if_pos rfl]
          omega
        · rw [lookupD_bump_ne hk, if_neg (fun hh => hk hh.symm)]
          omega
      rw [hv]

/-- Claim C8: cleaned header strings that collide are disambiguated by a
numeric suffix — position `i` keeps its plain cleaned name if no earlier
position holds the same name, and otherwise receives suffix `_j` where
`j` is the number of earlier occurrences; in particular the headers
"Sex (Student 1)" and "Sex (Student 2)" clean and dedupe to "Sex" and
"Sex_1". -/
theorem headerDedup (hs : List String) (i : Nat) (h : i < hs.length) :
    (dedupeHeaders hs).length = hs.length ∧
    (dedupeHeaders hs).getD i "" =
      (if countOcc (hs.take i) (hs.getD i "") = 0 then hs.getD i ""
       else hs.getD i "" ++ "_" ++ toString (countOcc (hs.take i) (hs.getD i ""))) ∧
    dedupeHeaders (["Sex (Student 1)", "Sex (Student 2)"].map cleanHeader) =
      ["Sex", "Sex_1"] := by
  refine ⟨dedupeAux_length hs [], ?_, by decide⟩
  have hg := dedupeAux_getD hs [] i h
  simpa [lookupD] using hg

/-- Witness for C8: the scenario headers, evaluated — the second "Sex"
occurrence (index 1) is within bounds and the deduped list is exactly
["Sex", "Sex_1"]. -/
theorem headerDedup_witness :
    1 < (["Sex (Student 1)", "Sex (Student 2)"].map cleanHeader).length ∧
    dedupeHeaders (["Sex (Student 1)", "Sex (Student 2)"].map cleanHeader) =
      ["Sex", "Sex_1"] :=
  ⟨by decide,
   (headerDedup (["Sex (Student 1)", "Sex (Student 2)"].map cleanHeader) 1 (by decide)).2.2⟩
